import Mathlib

/-!
# Verification of the fetch-storage-vault spec against its source

Shallow embedding of `src/src-tauri/src/storage.rs` and
`src/src-tauri/src/main.rs`.  Timestamps are modelled as `Int` seconds,
salts and nonce material as `Nat`, and the authenticated-encryption layer
(`crypto.rs`, which is not part of the given sources) is modelled
symbolically from the spec: a ciphertext remembers the key it was produced
under, and decryption succeeds exactly when the same key is supplied.
Serialization round-trips (RFC 3339 timestamps, JSON tag lists) are
abstracted by storing the typed plaintext directly in the symbolic
ciphertext.
-/

namespace FetchVault

/-- Modelled from the spec: `KeyDerivationStrength` lives in the missing
`crypto.rs`; the spec (§4.1) names three cost profiles. -/
inductive KeyDerivationStrength
  | Fast
  | Recommended
  | Paranoid
deriving DecidableEq, Repr

/-- Modelled from the spec: a derived symmetric key (missing `crypto.rs`).
`derive_key` is deterministic in (passphrase, salt, strength), and distinct
inputs give independent keys (§4.1), so a key is modelled as the triple. -/
structure Key where
  passphrase : String
  salt : Nat
  strength : KeyDerivationStrength
deriving DecidableEq, Repr

/-- Modelled from the spec: `Crypto::derive_key` (missing `crypto.rs`). -/
def derive_key (passphrase : String) (salt : Nat)
    (strength : KeyDerivationStrength) : Key :=
  ⟨passphrase, salt, strength⟩

/-- Modelled from the spec: an authenticated ciphertext (missing
`crypto.rs`).  The spec (§4.2) requires decryption to fail whenever the
authentication tag does not verify, i.e. under any key other than the one
used to encrypt; per-call random nonces are abstracted away because no
claim depends on ciphertext inequality. -/
structure Cipher (α : Type) where
  key : Key
  plain : α
deriving DecidableEq, Repr

/-- Modelled from the spec: `Crypto::encrypt` of an unlocked engine holding
key `k` (missing `crypto.rs`). -/
def encryptWith {α : Type} (k : Key) (p : α) : Cipher α := ⟨k, p⟩

/-- Modelled from the spec: `Crypto::decrypt` of an unlocked engine holding
key `k`; `none` is the `DecryptionFailed` outcome (missing `crypto.rs`). -/
def decryptWith {α : Type} (k : Key) (c : Cipher α) : Option α :=
  if c.key = k then some c.plain else none

/-- Modelled from the spec: the fixed non-secret verification marker
produced by `Crypto::generate_verification_token` (missing `crypto.rs`). -/
def verificationMarker : String := "fetch-vault-verification-token"

/-- Modelled from the spec: the error taxonomy of the missing `error.rs`
(§7 of the spec); only the variants exercised by the embedded commands. -/
inductive Err
  | vaultLocked
  | vaultAlreadyInitialized
  | invalidMasterKey
  | invalidInput (msg : String)
  | itemNotFound (id : String)
  | decryptionFailed
  | storageFailure (msg : String)
deriving DecidableEq, Repr

/-- `VaultItem` from `storage.rs` (decrypted, in-memory form).
Timestamps are `Int` seconds since epoch. -/
structure VaultItem where
  id : String
  parent_id : Option String
  name : String
  data_path : String
  item_type : String
  folder_type : Option String
  tags : List String
  created_at : Int
  updated_at : Int
  deleted_at : Option Int
  totp_secret : Option String
deriving DecidableEq, Repr

/-- One row of the `vault_items` table: `id` and `parent_id` are plaintext
columns, every other field an encrypted blob (schema in `Storage::new`). -/
structure ItemRow where
  id : String
  parent_id : Option String
  name : Cipher String
  item_type : Cipher String
  data_path : Cipher String
  folder_type : Option (Cipher String)
  tags : Cipher (List String)
  created_at : Cipher Int
  updated_at : Cipher Int
  deleted_at : Option (Cipher Int)
  totp_secret : Option (Cipher String)
deriving DecidableEq, Repr

/-- `SortOrder` from `storage.rs`. -/
inductive SortOrder
  | CreatedAtDesc
  | CreatedAtAsc
  | NameAsc
  | NameDesc
  | UpdatedAtDesc
  | UpdatedAtAsc
deriving DecidableEq, Repr

/-- `BruteForceConfig` from `storage.rs`. -/
structure BruteForceConfig where
  enabled : Bool
  max_attempts : Nat
  lockout_duration_minutes : Nat
deriving DecidableEq, Repr

/-- `BruteForceConfig::default`. -/
def BruteForceConfig.default : BruteForceConfig :=
  { enabled := true, max_attempts := 5, lockout_duration_minutes := 5 }

/-- `LockoutStatus` from `main.rs`. -/
structure LockoutStatus where
  is_locked_out : Bool
  remaining_seconds : Int
  failed_attempts : Nat
  max_attempts : Nat
  lockout_duration_minutes : Nat
deriving DecidableEq, Repr

/-- The persisted and in-memory state of one `VaultState` session:
the `vault_items` table, the payload file directory (`data/<path>`),
the `salt` and `verify` boundary files, the settings rows used by the
rate limiter, and the crypto engine (`none` = locked). -/
structure VaultState where
  rows : List ItemRow
  files : List (String × Cipher String)
  salt : Nat
  verify : Cipher String
  strength : KeyDerivationStrength
  engineKey : Option Key
  bfConfig : BruteForceConfig
  failedAttempts : Nat
  lastFailed : Option Int
deriving DecidableEq, Repr

/-! ## Field encryption / decryption of a row -/

/-- `Storage::row_to_vault_item`: decrypt every encrypted column; any
failing authentication tag aborts the read. -/
def row_to_vault_item (k : Key) (r : ItemRow) : Option VaultItem := do
  let name ← decryptWith k r.name
  let item_type ← decryptWith k r.item_type
  let data_path ← decryptWith k r.data_path
  let folder_type ← match r.folder_type with
    | some c => (decryptWith k c).map some
    | none => some none
  let tags ← decryptWith k r.tags
  let created_at ← decryptWith k r.created_at
  let updated_at ← decryptWith k r.updated_at
  let deleted_at ← match r.deleted_at with
    | some c => (decryptWith k c).map some
    | none => some none
  let totp_secret ← match r.totp_secret with
    | some c => (decryptWith k c).map some
    | none => some none
  some { id := r.id, parent_id := r.parent_id, name := name,
         data_path := data_path, item_type := item_type,
         folder_type := folder_type, tags := tags,
         created_at := created_at, updated_at := updated_at,
         deleted_at := deleted_at, totp_secret := totp_secret }

/-- The row written by `Storage::add_item` / `Storage::update_item_fields`
for a given in-memory item: every field but `id`/`parent_id` encrypted. -/
def item_to_row (k : Key) (it : VaultItem) : ItemRow :=
  { id := it.id
    parent_id := it.parent_id
    name := encryptWith k it.name
    item_type := encryptWith k it.item_type
    data_path := encryptWith k it.data_path
    folder_type := it.folder_type.map (encryptWith k)
    tags := encryptWith k it.tags
    created_at := encryptWith k it.created_at
    updated_at := encryptWith k it.updated_at
    deleted_at := it.deleted_at.map (encryptWith k)
    totp_secret := it.totp_secret.map (encryptWith k) }

/-- Every encrypted blob of the row was produced under key `k`. -/
def rowUnder (k : Key) (r : ItemRow) : Bool :=
  r.name.key = k && r.item_type.key = k && r.data_path.key = k &&
  r.folder_type.all (fun c => c.key = k) && r.tags.key = k &&
  r.created_at.key = k && r.updated_at.key = k &&
  r.deleted_at.all (fun c => c.key = k) &&
  r.totp_secret.all (fun c => c.key = k)

/-- The plaintext item stored in a row (meaningful when `rowUnder k r`). -/
def itemOfRow (r : ItemRow) : VaultItem :=
  { id := r.id, parent_id := r.parent_id, name := r.name.plain,
    item_type := r.item_type.plain, data_path := r.data_path.plain,
    folder_type := r.folder_type.map (fun c => c.plain),
    tags := r.tags.plain, created_at := r.created_at.plain,
    updated_at := r.updated_at.plain,
    deleted_at := r.deleted_at.map (fun c => c.plain),
    totp_secret := r.totp_secret.map (fun c => c.plain) }

/-! ## Name cleaning and listing order (`Storage::clean_url_for_sorting`,
`Storage::get_items`, `Storage::get_all_items_recursive`) -/

/-- `true` when `pat` occurs at the start of `s` (like `str::starts_with`). -/
def listStartsWith : List Char → List Char → Bool
  | [], _ => true
  | _ :: _, [] => false
  | p :: ps, c :: cs => p = c && listStartsWith ps cs

/-- Structural worker for `replaceAll`: `fuel` bounds the number of
consumed characters (each step consumes at least one, so `s.length`
suffices; the `fuel = 0` fallback is unreachable from `replaceAll`). -/
def replaceAllGo (pat rep : List Char) : Nat → List Char → List Char
  | _, [] => []
  | 0, s => s
  | fuel + 1, c :: rest =>
    if pat ≠ [] ∧ listStartsWith pat (c :: rest) then
      rep ++ replaceAllGo pat rep fuel (List.drop (pat.length - 1) rest)
    else
      c :: replaceAllGo pat rep fuel rest

/-- `str::replace(pat, rep)`: replace every non-overlapping occurrence of
`pat`, scanning left to right.  (The patterns used by the source are all
non-empty; for an empty pattern this model is the identity.) -/
def replaceAll (pat rep : List Char) (s : List Char) : List Char :=
  replaceAllGo pat rep s.length s

/-- `str::to_lowercase`, restricted to the ASCII lowering of `Char.toLower`
(the names exercised by the claims are ASCII). -/
def lowerChars (s : List Char) : List Char := s.map Char.toLower

/-- `Storage::clean_url_for_sorting`: sequentially `replace` the three
substrings (all occurrences each), then lower-case. -/
def clean_url_for_sorting (name : String) : String :=
  List.asString (lowerChars
    (replaceAll "www.".toList [] (replaceAll "http://".toList []
      (replaceAll "https://".toList [] name.toList))))

/-- Byte-lexicographic `Ord::cmp` on Rust strings (UTF-8 byte order equals
code-point order). -/
def cmpChars : List Char → List Char → Ordering
  | [], [] => .eq
  | [], _ :: _ => .lt
  | _ :: _, [] => .gt
  | a :: as, b :: bs =>
    match compare a b with
    | .eq => cmpChars as bs
    | o => o

/-- `String::cmp`. -/
def cmpString (a b : String) : Ordering := cmpChars a.toList b.toList

/-- The comparator closure passed to `sort_by` in `Storage::get_items`:
folders always first, ties broken by the requested sort order. -/
def itemCmp (sort_order : SortOrder) (a b : VaultItem) : Ordering :=
  if a.item_type = "folder" ∧ b.item_type ≠ "folder" then .lt
  else if a.item_type ≠ "folder" ∧ b.item_type = "folder" then .gt
  else
    match sort_order with
    | .CreatedAtDesc => compare b.created_at a.created_at
    | .CreatedAtAsc => compare a.created_at b.created_at
    | .NameAsc =>
      cmpString (clean_url_for_sorting a.name) (clean_url_for_sorting b.name)
    | .NameDesc =>
      cmpString (clean_url_for_sorting b.name) (clean_url_for_sorting a.name)
    | .UpdatedAtDesc => compare b.updated_at a.updated_at
    | .UpdatedAtAsc => compare a.updated_at b.updated_at

/-- The comparator closure in `Storage::get_all_items_recursive`:
folders first, then cleaned name ascending. -/
def recursiveCmp (a b : VaultItem) : Ordering :=
  if a.item_type = "folder" ∧ b.item_type ≠ "folder" then .lt
  else if a.item_type ≠ "folder" ∧ b.item_type = "folder" then .gt
  else cmpString (clean_url_for_sorting a.name) (clean_url_for_sorting b.name)

/-- `Storage::get_all_items_recursive`: decrypt every row (any decryption
failure aborts), then stable-sort folders-first by cleaned name. -/
def get_all_items_recursive (k : Key) (rows : List ItemRow) :
    Except Err (List VaultItem) :=
  match rows.mapM (row_to_vault_item k) with
  | none => .error .decryptionFailed
  | some items =>
    .ok (items.mergeSort (fun a b => recursiveCmp a b != Ordering.gt))

/-- `Storage::get_items`: select by parent, decrypt, stable-sort with
`itemCmp`, then apply the type filter. -/
def get_items (parent_id : Option String) (item_type_filter : Option String)
    (order_by : Option SortOrder) (k : Key) (rows : List ItemRow) :
    Except Err (List VaultItem) :=
  let matching := rows.filter (fun r => decide (r.parent_id = parent_id))
  match matching.mapM (row_to_vault_item k) with
  | none => .error .decryptionFailed
  | some all_items =>
    let sort_order := order_by.getD SortOrder.CreatedAtDesc
    let sorted :=
      all_items.mergeSort (fun a b => itemCmp sort_order a b != Ordering.gt)
    match item_type_filter with
    | some filter =>
      .ok (sorted.filter (fun item =>
        if item.item_type = "folder" then
          decide (item.folder_type = some filter)
        else
          filter.isPrefixOf item.item_type))
    | none => .ok sorted

/-- `Storage::get_item`: first row with the given id, decrypted; a
decryption failure is an error, an absent row is `ok none`. -/
def get_item (id : String) (k : Key) (rows : List ItemRow) :
    Except Err (Option VaultItem) :=
  match rows.find? (fun r => decide (r.id = id)) with
  | none => .ok none
  | some r =>
    match row_to_vault_item k r with
    | none => .error .decryptionFailed
    | some it => .ok (some it)

/-! ## Persistent rate limiter (`PersistentRateLimiter`, `main.rs`) -/

/-- `PersistentRateLimiter::check_and_update_lockout`: compute the lockout
status from the persisted counter/timestamp/config and self-heal once the
window has elapsed.  Returns the status and the (possibly updated) state. -/
def check_and_update_lockout (now : Int) (s : VaultState) :
    LockoutStatus × VaultState :=
  let config := s.bfConfig
  if config.enabled = false then
    ({ is_locked_out := false, remaining_seconds := 0,
       failed_attempts := s.failedAttempts,
       max_attempts := config.max_attempts,
       lockout_duration_minutes := config.lockout_duration_minutes }, s)
  else if s.failedAttempts ≥ config.max_attempts then
    match s.lastFailed with
    | some last_failed =>
      let lockout_end :=
        last_failed + (config.lockout_duration_minutes : Int) * 60
      if now < lockout_end then
        ({ is_locked_out := true,
           remaining_seconds := max (lockout_end - now) 0,
           failed_attempts := s.failedAttempts,
           max_attempts := config.max_attempts,
           lockout_duration_minutes := config.lockout_duration_minutes }, s)
      else
        let s2 := { s with failedAttempts := 0, lastFailed := none }
        ({ is_locked_out := false, remaining_seconds := 0,
           failed_attempts := s2.failedAttempts,
           max_attempts := config.max_attempts,
           lockout_duration_minutes := config.lockout_duration_minutes }, s2)
    | none =>
      ({ is_locked_out := false, remaining_seconds := 0,
         failed_attempts := s.failedAttempts,
         max_attempts := config.max_attempts,
         lockout_duration_minutes := config.lockout_duration_minutes }, s)
  else
    ({ is_locked_out := false, remaining_seconds := 0,
       failed_attempts := s.failedAttempts,
       max_attempts := config.max_attempts,
       lockout_duration_minutes := config.lockout_duration_minutes }, s)

/-- `PersistentRateLimiter::record_failed_attempt`. -/
def record_failed_attempt (now : Int) (s : VaultState) : VaultState :=
  { s with failedAttempts := s.failedAttempts + 1, lastFailed := some now }

/-- `PersistentRateLimiter::reset_attempts`. -/
def reset_attempts (s : VaultState) : VaultState :=
  { s with failedAttempts := 0, lastFailed := none }

/-- `unlock_vault` (`main.rs`): lockout gate, key derivation, engine
unlock, verification-token decrypt; on failure the engine is re-locked and
the attempt recorded, on success the counters are reset. -/
def unlock_vault (master_key : String) (now : Int) (s : VaultState) :
    Except Err Unit × VaultState :=
  let checked := check_and_update_lockout now s
  let lockout_status := checked.1
  let s1 := checked.2
  if lockout_status.is_locked_out then
    (.error (.invalidInput "Account locked due to too many failed attempts"),
      s1)
  else
    let salt := s1.salt
    let strength := s1.strength
    let verification_token := s1.verify
    let derived_key := derive_key master_key salt strength
    let s2 := { s1 with engineKey := some derived_key }
    if (decryptWith derived_key verification_token).isSome then
      (.ok (), reset_attempts s2)
    else
      let s3 := { s2 with engineKey := none }
      (.error .invalidMasterKey, record_failed_attempt now s3)

/-! ## Payload file store (`data/<path>`) and secure shredding -/

/-- `fs::read` of `data/<p>` (payloads are ciphertext blobs). -/
def fileRead (files : List (String × Cipher String)) (p : String) :
    Option (Cipher String) :=
  (files.find? (fun e => decide (e.1 = p))).map (fun e => e.2)

/-- `fs::write` of `data/<p>`: overwrite if present, create otherwise. -/
def fileWrite (files : List (String × Cipher String)) (p : String)
    (c : Cipher String) : List (String × Cipher String) :=
  if files.any (fun e => decide (e.1 = p)) then
    files.map (fun e => if e.1 = p then (p, c) else e)
  else files ++ [(p, c)]

/-- `fs::remove_file` of `data/<p>`. -/
def fileRemove (files : List (String × Cipher String)) (p : String) :
    List (String × Cipher String) :=
  files.filter (fun e => decide (e.1 ≠ p))

/-- Observable file-system side effects of the permanent-delete paths:
one fixed-pattern overwrite pass, the final random overwrite pass, or the
unlink of a payload file. -/
inductive FsEvent
  | shredPass (path : String) (pattern : Nat)
  | shredRandom (path : String)
  | removeFile (path : String)
deriving DecidableEq, Repr

/-- `Storage::write_shred_pattern`: one full-length overwrite with a fixed
byte pattern (flushed and synced). -/
def write_shred_pattern (path : String) (pattern : Nat) : FsEvent :=
  .shredPass path pattern

/-- `Storage::secure_shred_file`: passes `0x00, 0xFF, 0xAA, 0x55`, then one
pass of random bytes. -/
def secure_shred_file (path : String) : List FsEvent :=
  ([0x00, 0xFF, 0xAA, 0x55].map (write_shred_pattern path)) ++
    [FsEvent.shredRandom path]

/-! ## Cascade collection and soft delete
(`Storage::delete_item_and_descendants` and friends) -/

/-- `SELECT id FROM vault_items WHERE parent_id = ?1`. -/
def childIds (rows : List ItemRow) (pid : String) : List String :=
  (rows.filter (fun r => decide (r.parent_id = some pid))).map (fun r => r.id)

/-- The worklist loop shared by the cascade operations: `queue.pop()`
takes the last element of the `Vec`, the children are appended at the end.
The source loop has no termination guard (the table is acyclic by
construction); the `fuel` parameter is the embedding's termination
artifact, with `none` standing for a non-terminating traversal. -/
def collectLoop (rows : List ItemRow) :
    Nat → List String → List String → Option (List String)
  | _, [], acc => some acc
  | 0, _ :: _, _ => none
  | fuel + 1, c :: cs, acc =>
    let current := (c :: cs).getLast (by simp)
    let rest := (c :: cs).dropLast
    collectLoop rows fuel (rest ++ childIds rows current) (acc ++ [current])

/-- The id-collection phase: start from `[id]`, empty accumulator.  On a
forest `rows.length + 1` pops always suffice. -/
def collectIds (rows : List ItemRow) (start_id : String) :
    Option (List String) :=
  collectLoop rows (rows.length + 1) [start_id] []

/-- `Storage::delete_item_and_descendants`: collect the transitive
subtree, then stamp every collected row with one shared encrypted
`deleted_at` timestamp in a single transaction. -/
def delete_item_and_descendants (id : String) (now : Int) (k : Key)
    (s : VaultState) : Except Err Unit × VaultState :=
  match collectIds s.rows id with
  | none => (.error (.storageFailure "collection did not terminate"), s)
  | some ids_to_delete =>
    if ids_to_delete.isEmpty then (.ok (), s)
    else
      let encrypted_deleted_at := encryptWith k now
      let rows := s.rows.map (fun r =>
        if ids_to_delete.contains r.id then
          { r with deleted_at := some encrypted_deleted_at }
        else r)
      (.ok (), { s with rows := rows })

/-- `delete_item` command (`main.rs`): requires an unlocked engine, then
defers to the storage cascade and reports `true`. -/
def delete_item (id : String) (now : Int) (s : VaultState) :
    Except Err Bool × VaultState :=
  match s.engineKey with
  | none => (.error .vaultLocked, s)
  | some k =>
    match delete_item_and_descendants id now k s with
    | (.ok _, s1) => (.ok true, s1)
    | (.error e, s1) => (.error e, s1)

/-- `Storage::restore_item`: `UPDATE vault_items SET deleted_at = NULL
WHERE id = ?1`, reporting whether any row changed. -/
def restore_item (id : String) (s : VaultState) : Bool × VaultState :=
  let changes := (s.rows.filter (fun r => decide (r.id = id))).length
  let rows := s.rows.map (fun r =>
    if r.id = id then { r with deleted_at := none } else r)
  (decide (0 < changes), { s with rows := rows })

/-- `Storage::permanently_delete_item_and_descendants`: collect the
subtree, read the non-empty data paths (rows that fail to decrypt are
silently skipped), delete the rows, commit, then — after the commit —
securely shred and unlink every referenced payload file that exists. -/
def permanently_delete_item_and_descendants (id : String) (k : Key)
    (s : VaultState) : Except Err Unit × VaultState × List FsEvent :=
  match collectIds s.rows id with
  | none => (.error (.storageFailure "collection did not terminate"), s, [])
  | some ids_to_delete =>
    if ids_to_delete.isEmpty then (.ok (), s, [])
    else
      let data_paths :=
        (((s.rows.filter (fun r => ids_to_delete.contains r.id)).filterMap
            (row_to_vault_item k)).map (fun it => it.data_path)).filter
          (fun p => decide (p ≠ ""))
      let rows := s.rows.filter (fun r => !(ids_to_delete.contains r.id))
      let step := fun (st : List (String × Cipher String) × List FsEvent)
          (p : String) =>
        if p = "" then st
        else if (fileRead st.1 p).isSome then
          (fileRemove st.1 p,
            st.2 ++ secure_shred_file p ++ [FsEvent.removeFile p])
        else st
      let final := data_paths.foldl step (s.files, [])
      (.ok (), { s with rows := rows, files := final.1 }, final.2)

/-- One iteration of the payload-removal loop inside
`Storage::permanently_delete_all_deleted_items`: decrypt the data path
(silently skipping on failure) and, when the file exists, plainly remove
it — no shred pass. -/
def bulkDeleteStep (k : Key)
    (st : List (String × Cipher String) × List FsEvent)
    (e : String × Cipher String) :
    List (String × Cipher String) × List FsEvent :=
  match decryptWith k e.2 with
  | some data_path =>
    if (fileRead st.1 data_path).isSome then
      (fileRemove st.1 data_path, st.2 ++ [FsEvent.removeFile data_path])
    else st
  | none => st

/-- `Storage::permanently_delete_all_deleted_items`: select `(id,
data_path)` of every row with non-null `deleted_at`, remove each
referenced payload file that exists (no shredding), then delete the rows
and commit. -/
def permanently_delete_all_deleted_items (k : Key) (s : VaultState) :
    Except Err Unit × VaultState × List FsEvent :=
  let deleted_items :=
    (s.rows.filter (fun r => r.deleted_at.isSome)).map
      (fun r => (r.id, r.data_path))
  if deleted_items.isEmpty then (.ok (), s, [])
  else
    let final := deleted_items.foldl (bulkDeleteStep k) (s.files, [])
    let rows := s.rows.filter (fun r => !r.deleted_at.isSome)
    (.ok (), { s with rows := rows, files := final.1 }, final.2)

/-! ## Tag operations -/

/-- The per-item tag loop of `Storage::rename_tag_in_all_items`: rebuild
the tag list, converting `old_tag` into `new_tag` only when `new_tag` is
not already in the rebuilt list; the `updated` flag is set only when such
a conversion happened. -/
def renameTagsOfItem (old_tag new_tag : String) (tags : List String) :
    List String × Bool :=
  tags.foldl (fun (st : List String × Bool) tag =>
    if tag = old_tag then
      if !(st.1.contains new_tag) then (st.1 ++ [new_tag], true) else st
    else (st.1 ++ [tag], st.2)) ([], false)

/-- `Storage::update_item_fields` /
`Storage::update_item_fields_in_transaction`: whole-row replace by id,
every mutable field re-encrypted. -/
def update_item_fields (it : VaultItem) (k : Key) (rows : List ItemRow) :
    List ItemRow :=
  rows.map (fun r => if r.id = it.id then item_to_row k it else r)

/-- `Storage::rename_tag_in_all_items`: load every item, rewrite tag lists
in memory, write back only the items whose loop flagged `updated`, all in
one transaction. -/
def rename_tag_in_all_items (old_tag new_tag : String) (now : Int) (k : Key)
    (s : VaultState) : Except Err Unit × VaultState :=
  match get_all_items_recursive k s.rows with
  | .error e => (.error e, s)
  | .ok items =>
    let rows := items.foldl (fun rows it =>
      let res := renameTagsOfItem old_tag new_tag it.tags
      if res.2 then
        update_item_fields { it with tags := res.1, updated_at := now } k rows
      else rows) s.rows
    (.ok (), { s with rows := rows })

/-- `Storage::remove_tag_from_all_items`: retain the other tags, write
back only items whose tag count changed. -/
def remove_tag_from_all_items (tag_to_remove : String) (now : Int) (k : Key)
    (s : VaultState) : Except Err Unit × VaultState :=
  match get_all_items_recursive k s.rows with
  | .error e => (.error e, s)
  | .ok items =>
    let rows := items.foldl (fun rows it =>
      let kept := it.tags.filter (fun t => decide (t ≠ tag_to_remove))
      if kept.length ≠ it.tags.length then
        update_item_fields { it with tags := kept, updated_at := now } k rows
      else rows) s.rows
    (.ok (), { s with rows := rows })

/-! ## `update_item` command (`main.rs`) -/

/-- Arguments of the `update_item` command. -/
structure UpdateItemArgs where
  id : String
  name : String
  content : String
  item_type : String
  tags : List String
  parent_id : Option String
  totp_secret : Option String
deriving DecidableEq, Repr

/-- `str::trim` (whitespace from both ends). -/
def trimString (s : String) : String :=
  List.asString
    (((s.toList.dropWhile Char.isWhitespace).reverse.dropWhile
        Char.isWhitespace).reverse)

/-- `update_item` (`main.rs`): validate the name, require an unlocked
engine, read the existing row (or fail with `ItemNotFound`), rebuild the
item preserving `data_path`, `folder_type`, `created_at`, `deleted_at`
and falling back to the stored `totp_secret`, rewrite the payload for
text-like types, and replace the row. -/
def update_item (args : UpdateItemArgs) (now : Int) (s : VaultState) :
    Except Err Unit × VaultState :=
  if (trimString args.name).isEmpty then
    (.error (.invalidInput "Item name cannot be empty"), s)
  else
    match s.engineKey with
    | none => (.error .vaultLocked, s)
    | some k =>
      match get_item args.id k s.rows with
      | .error e => (.error e, s)
      | .ok none => (.error (.itemNotFound args.id), s)
      | .ok (some existing_item) =>
        let item : VaultItem :=
          { id := args.id
            parent_id := args.parent_id
            name := args.name
            data_path := existing_item.data_path
            item_type := args.item_type
            folder_type := existing_item.folder_type
            tags := args.tags
            created_at := existing_item.created_at
            updated_at := now
            deleted_at := existing_item.deleted_at
            totp_secret := args.totp_secret.or existing_item.totp_secret }
        let files :=
          if args.item_type = "text" ∨ args.item_type = "key" ∨
              args.item_type = "text/plain" then
            fileWrite s.files existing_item.data_path
              (encryptWith k args.content)
          else s.files
        (.ok (),
          { s with rows := update_item_fields item k s.rows, files := files })

/-! ## `update_master_key` command (`main.rs`) -/

/-- Arguments of the `update_master_key` command. -/
structure UpdateMasterKeyArgs where
  current_key : String
  new_key : String
  strength : Option KeyDerivationStrength
deriving DecidableEq, Repr

/-- One iteration of the re-encryption loop in `update_master_key`:
rewrite the row under the new key, and for a payload-bearing item decrypt
the payload under the old key and rewrite it under the new one. -/
def reencryptItem (k_old k_new : Key) (it : VaultItem) (s : VaultState) :
    Except Err Unit × VaultState :=
  let s1 := { s with rows := update_item_fields it k_new s.rows }
  if it.data_path ≠ "" then
    match fileRead s1.files it.data_path with
    | none =>
      (.error (.storageFailure ("File not found: " ++ it.data_path)), s1)
    | some encrypted_data =>
      match decryptWith k_old encrypted_data with
      | none => (.error .decryptionFailed, s1)
      | some decrypted_content =>
        let newFiles :=
          fileWrite s1.files it.data_path (encryptWith k_new decrypted_content)
        (.ok (), { s1 with files := newFiles })
  else (.ok (), s1)

/-- The `for item in &all_items` loop of `update_master_key`; an error
aborts mid-loop with the state mutated so far. -/
def reencryptLoop (k_old k_new : Key) :
    List VaultItem → VaultState → Except Err Unit × VaultState
  | [], s => (.ok (), s)
  | it :: rest, s =>
    match reencryptItem k_old k_new it s with
    | (.ok _, s1) => reencryptLoop k_old k_new rest s1
    | (.error e, s1) => (.error e, s1)

/-- `update_master_key` (`main.rs`): verify the current key against the
stored token, derive the new key from a fresh salt, re-encrypt every row
and payload under it, re-encrypt the verification token, persist the new
salt and strength, and swap the live engine to the new key. -/
def update_master_key (args : UpdateMasterKeyArgs) (new_salt : Nat)
    (s : VaultState) : Except Err Unit × VaultState :=
  let current_salt := s.salt
  let current_strength := s.strength
  let verification_token := s.verify
  let derived_key := derive_key args.current_key current_salt current_strength
  let s1 := { s with engineKey := some derived_key }
  match decryptWith derived_key verification_token with
  | none => (.error .invalidMasterKey, { s1 with engineKey := none })
  | some marker =>
    let new_strength := args.strength.getD current_strength
    let new_derived_key := derive_key args.new_key new_salt new_strength
    match get_all_items_recursive derived_key s1.rows with
    | .error e => (.error e, s1)
    | .ok all_items =>
      match reencryptLoop derived_key new_derived_key all_items s1 with
      | (.error e, s2) => (.error e, s2)
      | (.ok _, s2) =>
        let new_encrypted_token := encryptWith new_derived_key marker
        let s3 := { s2 with
          verify := new_encrypted_token
          salt := new_salt
          strength := new_strength
          engineKey := some new_derived_key }
        (.ok (), s3)

/-! ## Spec-side predicates and concrete fixtures -/

/-- The cleaning step exactly as claim C7 words it: strip only a LEADING
`https://`, `http://`, `www.` prefix and lower-case, altering no other
characters.  Written from the claim's words, to be compared with the
source-translated `clean_url_for_sorting`. -/
def cleanLeadingOnly (name : String) : String :=
  let cs0 := name.toList
  let cs1 := if listStartsWith "https://".toList cs0 then
    cs0.drop "https://".length else cs0
  let cs2 := if listStartsWith "http://".toList cs1 then
    cs1.drop "http://".length else cs1
  let cs3 := if listStartsWith "www.".toList cs2 then
    cs2.drop "www.".length else cs2
  List.asString (lowerChars cs3)

/-- Transitive reachability along `parent_id` links starting at `root`
(the root id itself is reachable): the set claim C5 describes. -/
inductive Reaches (rows : List ItemRow) (root : String) : String → Prop
  | refl : Reaches rows root root
  | step {p : String} {r : ItemRow} : Reaches rows root p → r ∈ rows →
      r.parent_id = some p → Reaches rows root r.id

/-- Is this event an overwrite (shred) pass on `path`? -/
def shredEventFor (path : String) : FsEvent → Bool
  | .shredPass p _ => decide (p = path)
  | .shredRandom p => decide (p = path)
  | .removeFile _ => false

/-- Is this event an overwrite (shred) pass at all? -/
def isShredEvent : FsEvent → Bool
  | .shredPass _ _ => true
  | .shredRandom _ => true
  | .removeFile _ => false

/-- Fixture key shared by the concrete witnesses and counterexamples. -/
def exKey : Key := ⟨"hunter2", 0, .Recommended⟩

/-- Fixture vault around a given row list: initialized, unlocked with
`exKey`, default brute-force settings, no payload files. -/
def baseVault (rows : List ItemRow) : VaultState :=
  { rows := rows, files := [], salt := 0,
    verify := encryptWith exKey verificationMarker,
    strength := .Recommended, engineKey := some exKey,
    bfConfig := BruteForceConfig.default,
    failedAttempts := 0, lastFailed := none }

/-- Fixture item carrying tags `["work", "old"]` (the spec §8 example). -/
def tagItem : VaultItem :=
  { id := "item-1", parent_id := none, name := "creds", data_path := "",
    item_type := "key", folder_type := none, tags := ["work", "old"],
    created_at := 0, updated_at := 0, deleted_at := none,
    totp_secret := none }

/-- Fixture vault for the tag-rename claim. -/
def tagVault : VaultState := baseVault [item_to_row exKey tagItem]

/-- Fixture soft-deleted item referencing payload file `"p"`. -/
def binItem : VaultItem :=
  { id := "item-bin", parent_id := none, name := "note", data_path := "p",
    item_type := "text/plain", folder_type := none, tags := [],
    created_at := 0, updated_at := 0, deleted_at := some 3,
    totp_secret := none }

/-- Fixture vault with one soft-deleted payload-bearing item. -/
def binVault : VaultState :=
  { baseVault [item_to_row exKey binItem] with
    files := [("p", encryptWith exKey "payload")] }

/-- Fixture three-level forest A → B → C. -/
def cascFolderA : VaultItem :=
  { id := "A", parent_id := none, name := "docs", data_path := "",
    item_type := "folder", folder_type := none, tags := [],
    created_at := 0, updated_at := 0, deleted_at := none,
    totp_secret := none }

/-- Fixture child item B under A. -/
def cascItemB : VaultItem :=
  { id := "B", parent_id := some "A", name := "note", data_path := "pB",
    item_type := "text/plain", folder_type := none, tags := [],
    created_at := 1, updated_at := 1, deleted_at := none,
    totp_secret := none }

/-- Fixture grandchild item C under B. -/
def cascItemC : VaultItem :=
  { id := "C", parent_id := some "B", name := "file", data_path := "pC",
    item_type := "text/plain", folder_type := none, tags := [],
    created_at := 2, updated_at := 2, deleted_at := none,
    totp_secret := none }

/-- Fixture vault holding the A → B → C forest. -/
def cascVault : VaultState :=
  baseVault [item_to_row exKey cascFolderA, item_to_row exKey cascItemB,
    item_to_row exKey cascItemC]

/-- Fixture locked-out vault: counter at the default maximum, last
failure at time 100. -/
def lockVault : VaultState :=
  { baseVault [] with failedAttempts := 5, lastFailed := some 100 }

/-- Fixture payload-bearing item for the key-rotation witness. -/
def rotItem : VaultItem :=
  { id := "R", parent_id := none, name := "token", data_path := "pR",
    item_type := "text/plain", folder_type := none, tags := ["work"],
    created_at := 4, updated_at := 5, deleted_at := none,
    totp_secret := some "TOTPSECRET" }

/-- Fixture vault for the key-rotation witness. -/
def rotVault : VaultState :=
  { baseVault [item_to_row exKey rotItem] with
    files := [("pR", encryptWith exKey "rotate-me")] }

/-- Fixture stored item for the `update_item` witness. -/
def updItem : VaultItem :=
  { id := "U", parent_id := some "A", name := "login", data_path := "pU",
    item_type := "key", folder_type := none, tags := ["old-tag"],
    created_at := 7, updated_at := 8, deleted_at := none,
    totp_secret := some "KEEPME" }

/-- Fixture vault for the `update_item` witness. -/
def updVault : VaultState := baseVault [item_to_row exKey updItem]

/-- Fixture `update_item` arguments: new name/tags, no totp supplied. -/
def updArgs : UpdateItemArgs :=
  { id := "U", name := "login2", content := "new content",
    item_type := "key", tags := ["new-tag"], parent_id := none,
    totp_secret := none }

/-- Fixture non-folder items for the name-cleaning witness. -/
def nameItemX : VaultItem :=
  { id := "X", parent_id := none, name := "a.www.b", data_path := "",
    item_type := "text/plain", folder_type := none, tags := [],
    created_at := 0, updated_at := 0, deleted_at := none,
    totp_secret := none }

/-- Second fixture item for the name-cleaning witness. -/
def nameItemY : VaultItem :=
  { id := "Y", parent_id := none, name := "a.q", data_path := "",
    item_type := "text/plain", folder_type := none, tags := [],
    created_at := 0, updated_at := 0, deleted_at := none,
    totp_secret := none }

/-! ## Round-trip lemmas for the symbolic crypto layer -/

theorem decryptWith_encryptWith {α : Type} (k : Key) (p : α) :
    decryptWith k (encryptWith k p) = some p := by
  simp [decryptWith, encryptWith]

theorem row_to_vault_item_item_to_row (k : Key) (it : VaultItem) :
    row_to_vault_item k (item_to_row k it) = some it := by
  cases it with
  | mk id parent_id name data_path item_type folder_type tags
      created_at updated_at deleted_at totp_secret =>
    cases folder_type <;> cases deleted_at <;> cases totp_secret <;>
      simp [row_to_vault_item, item_to_row, decryptWith, encryptWith, bind]

theorem rowUnder_item_to_row (k : Key) (it : VaultItem) :
    rowUnder k (item_to_row k it) = true := by
  cases it with
  | mk id parent_id name data_path item_type folder_type tags
      created_at updated_at deleted_at totp_secret =>
    cases folder_type <;> cases deleted_at <;> cases totp_secret <;>
      simp [rowUnder, item_to_row, encryptWith]

theorem Cipher.eq_mk_of_key {α : Type} {c : Cipher α} {k : Key}
    (h : c.key = k) : c = ⟨k, c.plain⟩ := by
  cases c; cases h; rfl

theorem eq_item_to_row_of_rowUnder {k : Key} {r : ItemRow}
    (h : rowUnder k r = true) : r = item_to_row k (itemOfRow r) := by
  cases r with
  | mk id parent_id name item_type data_path folder_type tags
      created_at updated_at deleted_at totp_secret =>
    simp only [rowUnder, Bool.and_eq_true, decide_eq_true_eq] at h
    obtain ⟨⟨⟨⟨⟨⟨⟨⟨h1, h2⟩, h3⟩, h4⟩, h5⟩, h6⟩, h7⟩, h8⟩, h9⟩ := h
    cases name; cases item_type; cases data_path; cases tags
    cases created_at; cases updated_at
    simp only at h1 h2 h3 h5 h6 h7
    subst h1 h2 h3 h5 h6 h7
    cases folder_type <;> cases deleted_at <;> cases totp_secret <;>
      simp_all [item_to_row, itemOfRow, encryptWith, Option.all] <;>
      (repeat' apply And.intro) <;>
      exact Cipher.eq_mk_of_key (by assumption)

theorem itemOfRow_item_to_row (k : Key) (it : VaultItem) :
    itemOfRow (item_to_row k it) = it := by
  cases it with
  | mk id parent_id name data_path item_type folder_type tags
      created_at updated_at deleted_at totp_secret =>
    cases folder_type <;> cases deleted_at <;> cases totp_secret <;>
      simp [itemOfRow, item_to_row, encryptWith]

theorem row_to_vault_item_of_rowUnder {k : Key} {r : ItemRow}
    (h : rowUnder k r = true) :
    row_to_vault_item k r = some (itemOfRow r) := by
  conv_lhs => rw [eq_item_to_row_of_rowUnder h]
  rw [row_to_vault_item_item_to_row]

theorem mapM_decrypt (k : Key) (rows : List ItemRow)
    (h : ∀ r ∈ rows, rowUnder k r = true) :
    rows.mapM (row_to_vault_item k) = some (rows.map itemOfRow) := by
  induction rows with
  | nil => rfl
  | cons r rs ih =>
    rw [List.mapM_cons, row_to_vault_item_of_rowUnder (h r (by simp)),
      ih (fun x hx => h x (by simp [hx]))]
    rfl

/-! ## Claim C3: lockout check -/

/-- C3: with brute-force protection enabled, the counter at or above the
maximum and a last-failed timestamp on record, `check_and_update_lockout`
reports locked-out with `remaining_seconds = max 0 (lockout_end - now)`
and mutates nothing while `now` is before the window's end, and zeroes the
counter, clears the timestamp and reports not-locked-out once `now` is at
or past the end. -/
theorem C3_lockout_check (s : VaultState) (now t : Int)
    (hen : s.bfConfig.enabled = true)
    (hmax : s.bfConfig.max_attempts ≤ s.failedAttempts)
    (hts : s.lastFailed = some t) :
    (now < t + (s.bfConfig.lockout_duration_minutes : Int) * 60 →
      check_and_update_lockout now s =
        ({ is_locked_out := true,
           remaining_seconds :=
             max 0 (t + (s.bfConfig.lockout_duration_minutes : Int) * 60 -
               now),
           failed_attempts := s.failedAttempts,
           max_attempts := s.bfConfig.max_attempts,
           lockout_duration_minutes := s.bfConfig.lockout_duration_minutes },
          s)) ∧
    (t + (s.bfConfig.lockout_duration_minutes : Int) * 60 ≤ now →
      check_and_update_lockout now s =
        ({ is_locked_out := false, remaining_seconds := 0,
           failed_attempts := 0,
           max_attempts := s.bfConfig.max_attempts,
           lockout_duration_minutes := s.bfConfig.lockout_duration_minutes },
          { s with failedAttempts := 0, lastFailed := none })) := by
  constructor
  · intro hlt
    simp [check_and_update_lockout, hen, hts, hmax, hlt, max_comm]
  · intro hge
    simp [check_and_update_lockout, hen, hts, hmax, not_lt.mpr hge]

/-- Witness for C3 on the concrete locked-out fixture: inside the window
(now = 150, end = 400) the check reports 250 remaining seconds and leaves
the state alone; at now = 400 it self-heals and reports not-locked-out. -/
theorem C3_lockout_check_witness :
    check_and_update_lockout 150 lockVault =
      ({ is_locked_out := true, remaining_seconds := 250,
         failed_attempts := 5, max_attempts := 5,
         lockout_duration_minutes := 5 }, lockVault) ∧
    check_and_update_lockout 400 lockVault =
      ({ is_locked_out := false, remaining_seconds := 0,
         failed_attempts := 0, max_attempts := 5,
         lockout_duration_minutes := 5 },
        { lockVault with failedAttempts := 0, lastFailed := none }) := by
  have h1 := C3_lockout_check lockVault 150 100 rfl (by decide) rfl
  have h2 := C3_lockout_check lockVault 400 100 rfl (by decide) rfl
  exact ⟨by simpa using h1.1 (by decide), by simpa using h2.2 (by decide)⟩

/-! ## Claim C8: restore frame property -/

/-- C8: `restore_item id` clears `deleted_at` on exactly the rows with the
given id, leaving every field of those rows other than `deleted_at`
(including `parent_id`) unchanged, leaving every other row entirely
unchanged, and touching no other component of the vault state. -/
theorem C8_restore_frame (s : VaultState) (id : String) :
    (restore_item id s).2.files = s.files ∧
    (restore_item id s).2.engineKey = s.engineKey ∧
    (restore_item id s).2.salt = s.salt ∧
    (restore_item id s).2.verify = s.verify ∧
    (restore_item id s).2.failedAttempts = s.failedAttempts ∧
    List.Forall₂ (fun r r1 =>
        (r.id = id → r1 = { r with deleted_at := none }) ∧
        (r.id ≠ id → r1 = r))
      s.rows (restore_item id s).2.rows := by
  refine ⟨rfl, rfl, rfl, rfl, rfl, ?_⟩
  simp only [restore_item]
  rw [List.forall₂_map_right_iff, List.forall₂_same]
  intro r _
  constructor
  · intro h; simp [h]
  · intro h; simp [h]

/-! ## Claim C7: name cleaning for Name sorts -/

theorem listStartsWith_iff (p s : List Char) :
    listStartsWith p s = true ↔ p <+: s := by
  induction p generalizing s with
  | nil => simp [listStartsWith]
  | cons a ps ih =>
    cases s with
    | nil => simp [listStartsWith]
    | cons c cs =>
      simp [listStartsWith, List.cons_prefix_cons, ih, and_comm]

theorem replaceAllGo_not_infix (pat rep : List Char) (fuel : Nat) :
    ∀ s : List Char, ¬ (pat <:+: s) → replaceAllGo pat rep fuel s = s := by
  induction fuel with
  | zero => intro s _; cases s <;> rfl
  | succ n ih =>
    intro s h
    cases s with
    | nil => rfl
    | cons c rest =>
      simp only [replaceAllGo]
      rw [if_neg, ih rest (fun hin => h (List.infix_cons hin))]
      rintro ⟨_, hsw⟩
      exact h ((listStartsWith_iff _ _ |>.mp hsw).isInfix)

theorem replaceAll_not_infix (pat rep s : List Char)
    (h : ¬ (pat <:+: s)) : replaceAll pat rep s = s :=
  replaceAllGo_not_infix pat rep s.length s h

/-- C7 (counterexample): the source's cleaning removes the interior
`www.` of `"a.www.b"` (no leading prefix present), diverging from the
claimed leading-only stripping; consequently the Name-sort comparator
orders `"a.www.b"` before `"a.q"` while a leading-only comparison would
order them the other way. -/
theorem C7_counterexample :
    clean_url_for_sorting "a.www.b" = "a.b" ∧
    cleanLeadingOnly "a.www.b" = "a.www.b" ∧
    clean_url_for_sorting "a.www.b" ≠ cleanLeadingOnly "a.www.b" ∧
    itemCmp .NameAsc nameItemX nameItemY = .lt ∧
    cmpString (cleanLeadingOnly nameItemX.name)
      (cleanLeadingOnly nameItemY.name) = .gt := by
  decide

/-- C7 (amended): under a Name sort order, two items of equal
folder-status are compared on `clean_url_for_sorting` of their names,
which removes EVERY occurrence of `https://`, `http://`, `www.`
(sequentially, in that order) and then lower-cases; a name containing
none of the three substrings is only lower-cased by the cleaning step. -/
theorem C7_name_cleaning_amended (a b : VaultItem) (s : String)
    (ha : a.item_type ≠ "folder") (hb : b.item_type ≠ "folder")
    (h1 : ¬ ("https://".toList <:+: s.toList))
    (h2 : ¬ ("http://".toList <:+: s.toList))
    (h3 : ¬ ("www.".toList <:+: s.toList)) :
    itemCmp .NameAsc a b =
      cmpString (clean_url_for_sorting a.name)
        (clean_url_for_sorting b.name) ∧
    itemCmp .NameDesc a b =
      cmpString (clean_url_for_sorting b.name)
        (clean_url_for_sorting a.name) ∧
    clean_url_for_sorting s = List.asString (lowerChars s.toList) := by
  refine ⟨by simp [itemCmp, ha, hb], by simp [itemCmp, ha, hb], ?_⟩
  rw [clean_url_for_sorting, replaceAll_not_infix _ _ _ h1,
    replaceAll_not_infix _ _ _ h2, replaceAll_not_infix _ _ _ h3]

/-- Witness for the amended C7 at concrete inputs. -/
theorem C7_name_cleaning_amended_witness :
    (itemCmp .NameAsc nameItemX nameItemY =
      cmpString (clean_url_for_sorting nameItemX.name)
        (clean_url_for_sorting nameItemY.name) ∧
    itemCmp .NameDesc nameItemX nameItemY =
      cmpString (clean_url_for_sorting nameItemY.name)
        (clean_url_for_sorting nameItemX.name) ∧
    clean_url_for_sorting "Alpha-Beta" =
      List.asString (lowerChars "Alpha-Beta".toList)) :=
  C7_name_cleaning_amended nameItemX nameItemY "Alpha-Beta" (by decide)
    (by decide) (by decide) (by decide) (by decide)

/-! ## Claim C1: tag rename de-duplication -/

/-- C1 (code bug): on the spec's own example — an item with tags
`["work", "old"]`, renaming `"old"` to `"work"` — the loop's `updated`
flag stays false (the skip branch does not set it), so nothing is written
back: the whole state is returned unchanged, the old tag is NOT removed
and `updated_at` does NOT advance.  With the tags in the order
`["old", "work"]` the loop instead writes back `["work", "work"]`, a
duplicate, contradicting rename de-duplication from the other side. -/
theorem C1_rename_dedup_code_bug :
    renameTagsOfItem "old" "work" ["work", "old"] = (["work"], false) ∧
    rename_tag_in_all_items "old" "work" 99 exKey tagVault =
      (.ok (), tagVault) ∧
    renameTagsOfItem "old" "work" ["old", "work"] =
      (["work", "work"], true) := by
  refine ⟨by decide, ?_, by decide⟩
  have hget : get_all_items_recursive exKey tagVault.rows = .ok [tagItem] := by
    have hm := mapM_decrypt exKey tagVault.rows (by
      intro r hr
      simp only [tagVault, baseVault, List.mem_singleton] at hr
      simp [hr, rowUnder_item_to_row])
    rw [get_all_items_recursive, hm]
    simp [tagVault, baseVault, itemOfRow_item_to_row]
  simp only [rename_tag_in_all_items, hget]
  rfl

/-! ## Claim C10: deleting a missing id -/

/-- C10: `delete_item` on an id that no row carries and no row references
as parent succeeds with `Ok(true)` and leaves the state unchanged. -/
theorem C10_delete_missing_id (s : VaultState) (k : Key) (id : String)
    (now : Int) (hk : s.engineKey = some k)
    (habs : ∀ r ∈ s.rows, r.id ≠ id)
    (hchild : ∀ r ∈ s.rows, r.parent_id ≠ some id) :
    delete_item id now s = (.ok true, s) := by
  have hfilter : s.rows.filter (fun r => decide (r.parent_id = some id)) =
      [] :=
    List.filter_eq_nil_iff.mpr (fun r hr => by simpa using hchild r hr)
  have hchildIds : childIds s.rows id = [] := by
    rw [childIds, hfilter]; rfl
  have hcol : collectIds s.rows id = some [id] := by
    simp [collectIds, collectLoop, hchildIds]
  have hdel : delete_item_and_descendants id now k s = (.ok (), s) := by
    simp only [delete_item_and_descendants, hcol]
    have hmap : (s.rows.map (fun r =>
        if ([id].contains r.id) then
          { r with deleted_at := some (encryptWith k now) }
        else r)) = s.rows :=
      (List.map_congr_left (fun r hr => by
        simp [List.contains_cons, beq_iff_eq, habs r hr])).trans
        (List.map_id' s.rows)
    rw [if_neg (by simp), hmap]
  simp only [delete_item, hk, hdel]

/-- Witness for C10 at a concrete missing id. -/
theorem C10_delete_missing_id_witness :
    delete_item "Z" 77 cascVault = (.ok true, cascVault) :=
  C10_delete_missing_id cascVault exKey "Z" 77 rfl (by decide) (by decide)

/-! ## File-store lemmas -/

theorem fileRead_cons (e : String × Cipher String)
    (tl : List (String × Cipher String)) (p : String) :
    fileRead (e :: tl) p = if e.1 = p then some e.2 else fileRead tl p := by
  by_cases h : e.1 = p
  · simp [fileRead, List.find?_cons_of_pos, h]
  · simp only [if_neg h, fileRead]
    rw [List.find?_cons_of_neg _ (by simpa using h)]

theorem fileRemove_cons (e : String × Cipher String)
    (tl : List (String × Cipher String)) (q : String) :
    fileRemove (e :: tl) q =
      if e.1 = q then fileRemove tl q else e :: fileRemove tl q := by
  by_cases h : e.1 = q
  · simp [fileRemove, List.filter_cons, h]
  · simp [fileRemove, List.filter_cons, h]

theorem fileRead_fileRemove_self (files : List (String × Cipher String))
    (p : String) : fileRead (fileRemove files p) p = none := by
  rw [fileRead, List.find?_eq_none.mpr, Option.map_none']
  intro x hx
  simp only [fileRemove, List.mem_filter, decide_eq_true_eq] at hx
  simp [hx.2]

theorem fileRead_fileRemove_other (files : List (String × Cipher String))
    (p q : String) (hpq : p ≠ q) :
    fileRead (fileRemove files q) p = fileRead files p := by
  induction files with
  | nil => rfl
  | cons e tl ih =>
    rw [fileRemove_cons, fileRead_cons]
    by_cases heq : e.1 = q
    · rw [if_pos heq, ih, if_neg (fun h : e.1 = p => hpq (h ▸ heq))]
    · rw [if_neg heq, fileRead_cons, ih]

theorem fileRead_fileRemove_of_none (files : List (String × Cipher String))
    (p q : String) (h : fileRead files p = none) :
    fileRead (fileRemove files q) p = none := by
  by_cases hpq : p = q
  · rw [hpq]; exact fileRead_fileRemove_self files q
  · rw [fileRead_fileRemove_other files p q hpq]; exact h

theorem fileRead_mapUpdate_other (files : List (String × Cipher String))
    (p q : String) (c : Cipher String) (hpq : p ≠ q) :
    fileRead (files.map (fun e => if e.1 = q then (q, c) else e)) p =
      fileRead files p := by
  induction files with
  | nil => rfl
  | cons e tl ih =>
    rw [List.map_cons, fileRead_cons, fileRead_cons]
    by_cases heq : e.1 = q
    · rw [if_pos heq]
      have h1 : ¬((q, c).1 = p) := fun h => hpq h.symm
      rw [if_neg h1, if_neg (fun h : e.1 = p => hpq (h ▸ heq)), ih]
    · rw [if_neg heq]
      by_cases hep : e.1 = p
      · rw [if_pos hep, if_pos hep]
      · rw [if_neg hep, if_neg hep, ih]

theorem fileRead_mapUpdate_self (files : List (String × Cipher String))
    (q : String) (c : Cipher String)
    (h : files.any (fun e => decide (e.1 = q)) = true) :
    fileRead (files.map (fun e => if e.1 = q then (q, c) else e)) q =
      some c := by
  induction files with
  | nil => cases h
  | cons e tl ih =>
    rw [List.map_cons, fileRead_cons]
    by_cases heq : e.1 = q
    · rw [if_pos heq, if_pos rfl]
    · rw [if_neg heq, if_neg heq]
      refine ih ?_
      rcases List.any_eq_true.mp h with ⟨x, hx, hxq⟩
      rcases List.mem_cons.mp hx with h0 | h0
      · exact absurd (h0 ▸ of_decide_eq_true hxq) heq
      · exact List.any_eq_true.mpr ⟨x, h0, hxq⟩

theorem fileRead_append_single (files : List (String × Cipher String))
    (p q : String) (c : Cipher String) :
    fileRead (files ++ [(q, c)]) p =
      if (fileRead files p).isSome then fileRead files p
      else if q = p then some c else none := by
  rw [fileRead, List.find?_append]
  cases hf : files.find? (fun e => decide (e.1 = p)) with
  | some e => simp [fileRead, hf]
  | none =>
    have hfr : fileRead files p = none := by rw [fileRead, hf]; rfl
    simp only [hf, Option.none_orElse, hfr, Option.isSome_none,
      Bool.false_eq_true, if_false]
    by_cases hqp : q = p
    · rw [List.find?_cons_of_pos _ (by simpa using hqp)]
      simp [hqp]
    · rw [List.find?_cons_of_neg _ (by simpa using hqp), List.find?_nil]
      simp [hqp]

theorem fileRead_fileWrite_self (files : List (String × Cipher String))
    (p : String) (c : Cipher String) :
    fileRead (fileWrite files p c) p = some c := by
  rw [fileWrite]
  by_cases hca : files.any (fun e => decide (e.1 = p)) = true
  · rw [if_pos hca]
    exact fileRead_mapUpdate_self files p c hca
  · rw [if_neg hca, fileRead_append_single]
    have hnone : fileRead files p = none := by
      rw [fileRead, List.find?_eq_none.mpr, Option.map_none']
      intro x hx hpx
      exact hca (List.any_eq_true.mpr ⟨x, hx, hpx⟩)
    rw [hnone]
    simp

theorem fileRead_fileWrite_other (files : List (String × Cipher String))
    (p q : String) (c : Cipher String) (hpq : p ≠ q) :
    fileRead (fileWrite files q c) p = fileRead files p := by
  rw [fileWrite]
  by_cases hca : files.any (fun e => decide (e.1 = q)) = true
  · rw [if_pos hca]
    exact fileRead_mapUpdate_other files p q c hpq
  · rw [if_neg hca, fileRead_append_single]
    cases hf : fileRead files p with
    | some e => simp [hf]
    | none => simp [hf, Ne.symm hpq]

/-! ## Claim C2: recycling-bin permanent delete -/

theorem bulkDeleteStep_noShred (k : Key)
    (st : List (String × Cipher String) × List FsEvent)
    (e : String × Cipher String) :
    (bulkDeleteStep k st e).2.any isShredEvent = st.2.any isShredEvent := by
  rw [bulkDeleteStep]
  cases decryptWith k e.2 with
  | none => rfl
  | some dp =>
    by_cases h : (fileRead st.1 dp).isSome = true
    · simp [h, List.any_append, isShredEvent]
    · simp [h]

theorem bulkFold_noShred (k : Key) (l : List (String × Cipher String)) :
    ∀ st : List (String × Cipher String) × List FsEvent,
      ((l.foldl (bulkDeleteStep k) st).2.any isShredEvent) =
        st.2.any isShredEvent := by
  induction l with
  | nil => intro st; rfl
  | cons hd tl ih =>
    intro st
    rw [List.foldl_cons, ih, bulkDeleteStep_noShred]

theorem bulkDeleteStep_absent (k : Key)
    (st : List (String × Cipher String) × List FsEvent)
    (e : String × Cipher String) (p : String)
    (h : fileRead st.1 p = none) :
    fileRead (bulkDeleteStep k st e).1 p = none := by
  rw [bulkDeleteStep]
  cases decryptWith k e.2 with
  | none => exact h
  | some dp =>
    by_cases hif : (fileRead st.1 dp).isSome = true
    · simp only [if_pos hif]
      exact fileRead_fileRemove_of_none st.1 p dp h
    · simp only [if_neg hif]
      exact h

theorem bulkFold_absent (k : Key) (l : List (String × Cipher String)) :
    ∀ st, ∀ p : String, fileRead st.1 p = none →
      fileRead ((l.foldl (bulkDeleteStep k) st).1) p = none := by
  induction l with
  | nil => intro st p h; exact h
  | cons hd tl ih =>
    intro st p h
    rw [List.foldl_cons]
    exact ih _ p (bulkDeleteStep_absent k st hd p h)

theorem bulkDeleteStep_keeps (k : Key)
    (st : List (String × Cipher String) × List FsEvent)
    (e : String × Cipher String) (p : String)
    (h : (fileRead st.1 p).isSome = true ∨ FsEvent.removeFile p ∈ st.2) :
    (fileRead (bulkDeleteStep k st e).1 p).isSome = true ∨
      FsEvent.removeFile p ∈ (bulkDeleteStep k st e).2 := by
  rw [bulkDeleteStep]
  cases decryptWith k e.2 with
  | none => exact h
  | some dp =>
    by_cases hif : (fileRead st.1 dp).isSome = true
    · simp only [if_pos hif]
      by_cases hpd : p = dp
      · right
        subst hpd
        exact List.mem_append_right _ (by simp)
      · rcases h with h | h
        · left
          rw [fileRead_fileRemove_other st.1 p dp hpd]
          exact h
        · right
          exact List.mem_append_left _ h
    · simp only [if_neg hif]
      exact h

theorem bulkFold_keeps (k : Key) (l : List (String × Cipher String)) :
    ∀ st, ∀ p : String,
      ((fileRead st.1 p).isSome = true ∨ FsEvent.removeFile p ∈ st.2) →
      ((fileRead ((l.foldl (bulkDeleteStep k) st).1) p).isSome = true ∨
        FsEvent.removeFile p ∈ (l.foldl (bulkDeleteStep k) st).2) := by
  induction l with
  | nil => intro st p h; exact h
  | cons hd tl ih =>
    intro st p h
    rw [List.foldl_cons]
    exact ih _ p (bulkDeleteStep_keeps k st hd p h)

theorem bulkFold_processed (k : Key) (l : List (String × Cipher String)) :
    ∀ st, ∀ pr ∈ l, pr.2.key = k →
      fileRead ((l.foldl (bulkDeleteStep k) st).1) pr.2.plain = none := by
  induction l with
  | nil => intro st pr h; cases h
  | cons hd tl ih =>
    intro st pr hmem hk
    rw [List.foldl_cons]
    rcases List.mem_cons.mp hmem with h0 | h0
    · subst h0
      refine bulkFold_absent k tl _ pr.2.plain ?_
      rw [bulkDeleteStep]
      have hdec : decryptWith k pr.2 = some pr.2.plain := by
        rw [decryptWith, if_pos hk]
      rw [hdec]
      by_cases hif : (fileRead st.1 pr.2.plain).isSome = true
      · simp only [if_pos hif]
        exact fileRead_fileRemove_self st.1 pr.2.plain
      · simp only [if_neg hif]
        exact Option.not_isSome_iff_eq_none.mp hif
    · exact ih _ pr h0 hk

/-- C2 (counterexample): on a vault with one soft-deleted item whose
non-empty `data_path` `"p"` references an existing payload file, the bulk
permanent delete emits only a plain `remove` of `"p"` — no shred pass at
all — while the single-item permanent delete of the same item shreds
(four fixed patterns plus a random pass) before removing. -/
theorem C2_counterexample :
    (permanently_delete_all_deleted_items exKey binVault).2.2 =
      [FsEvent.removeFile "p"] ∧
    ((permanently_delete_all_deleted_items exKey binVault).2.2.any
      (shredEventFor "p")) = false ∧
    (permanently_delete_item_and_descendants "item-bin" exKey binVault).2.2 =
      secure_shred_file "p" ++ [FsEvent.removeFile "p"] ∧
    (permanently_delete_all_deleted_items exKey binVault).1 = .ok () ∧
    (permanently_delete_all_deleted_items exKey binVault).2.1.rows = [] ∧
    binItem.deleted_at.isSome = true ∧ binItem.data_path ≠ "" := by
  refine ⟨rfl, rfl, rfl, rfl, rfl, rfl, by decide⟩

/-- C2 (amended): `permanently_delete_all_deleted_items` deletes exactly
the rows with non-null `deleted_at` and removes every referenced payload
file that exists, but performs NO shred pass (unlike the single-item
permanent delete), and the removals happen before the transaction
commits. -/
theorem C2_bulk_delete_amended (s : VaultState) (k : Key)
    (hrows : ∀ r ∈ s.rows, rowUnder k r = true) :
    (permanently_delete_all_deleted_items k s).1 = .ok () ∧
    (permanently_delete_all_deleted_items k s).2.1.rows =
      s.rows.filter (fun r => !r.deleted_at.isSome) ∧
    ((permanently_delete_all_deleted_items k s).2.2.any isShredEvent) =
      false ∧
    (∀ r ∈ s.rows, r.deleted_at.isSome = true →
      fileRead (permanently_delete_all_deleted_items k s).2.1.files
        r.data_path.plain = none ∧
      ((fileRead s.files r.data_path.plain).isSome = true →
        FsEvent.removeFile r.data_path.plain ∈
          (permanently_delete_all_deleted_items k s).2.2)) := by
  by_cases hni : ((s.rows.filter (fun r => r.deleted_at.isSome)).map
      (fun r => (r.id, r.data_path))).isEmpty = true
  · have hfe : s.rows.filter (fun r => r.deleted_at.isSome) = [] := by
      have := List.isEmpty_iff.mp hni
      exact List.map_eq_nil_iff.mp this
    have hnodel : ∀ r ∈ s.rows, r.deleted_at.isSome = false := by
      intro r hr
      by_contra hcon
      have hmem : r ∈ s.rows.filter (fun r => r.deleted_at.isSome) :=
        List.mem_filter.mpr ⟨hr, eq_true_of_ne_false hcon⟩
      rw [hfe] at hmem
      cases hmem
    rw [permanently_delete_all_deleted_items]
    rw [if_pos hni]
    refine ⟨rfl, ?_, rfl, ?_⟩
    · rw [List.filter_eq_self.mpr]
      intro r hr
      simp [hnodel r hr]
    · intro r hr hdel
      rw [hnodel r hr] at hdel
      cases hdel
  · rw [permanently_delete_all_deleted_items]
    rw [if_neg hni]
    refine ⟨rfl, rfl, bulkFold_noShred k _ (s.files, []), ?_⟩
    intro r hr hdel
    have hkey : r.data_path.key = k := by
      have h := hrows r hr
      simp only [rowUnder, Bool.and_eq_true, decide_eq_true_eq] at h
      exact h.1.1.1.1.1.1.2
    have hmem : (r.id, r.data_path) ∈
        (s.rows.filter (fun r => r.deleted_at.isSome)).map
          (fun r => (r.id, r.data_path)) :=
      List.mem_map.mpr ⟨r, List.mem_filter.mpr ⟨hr, by simpa using hdel⟩, rfl⟩
    have habsent := bulkFold_processed k _ (s.files, ([] : List FsEvent))
      (r.id, r.data_path) hmem hkey
    refine ⟨habsent, ?_⟩
    intro hpresent
    have hkeep := bulkFold_keeps k
      ((s.rows.filter (fun r => r.deleted_at.isSome)).map
        (fun r => (r.id, r.data_path)))
      (s.files, ([] : List FsEvent)) r.data_path.plain (.inl hpresent)
    rcases hkeep with h | h
    · rw [habsent] at h
      cases h
    · exact h

/-- Witness for the amended C2 on the concrete one-deleted-item vault. -/
theorem C2_bulk_delete_amended_witness :
    (permanently_delete_all_deleted_items exKey binVault).1 = .ok () ∧
    (permanently_delete_all_deleted_items exKey binVault).2.1.rows = [] ∧
    ((permanently_delete_all_deleted_items exKey binVault).2.2.any
      isShredEvent) = false := by
  have h := C2_bulk_delete_amended binVault exKey (by decide)
  exact ⟨h.1, by rw [h.2.1]; rfl, h.2.2.1⟩

/-! ## Claim C9: `update_item` preservation and not-found behavior -/

/-- C9: for an existing item, `update_item` keeps the stored `data_path`,
`created_at`, `folder_type` and `deleted_at` whatever the caller sends,
keeps the stored `totp_secret` when none is supplied (`Option::or`), and
stamps `updated_at := now`; for a missing id it fails with `ItemNotFound`
and returns the state unchanged. -/
theorem C9_update_item_frame (args : UpdateItemArgs) (now : Int)
    (s : VaultState) (k : Key) (hk : s.engineKey = some k)
    (hname : (trimString args.name).isEmpty = false) :
    ((∀ r ∈ s.rows, r.id ≠ args.id) →
      update_item args now s = (.error (.itemNotFound args.id), s)) ∧
    (∀ r0 ex, s.rows.find? (fun r => decide (r.id = args.id)) = some r0 →
      row_to_vault_item k r0 = some ex →
      (update_item args now s).1 = .ok () ∧
      (∀ r1 ∈ (update_item args now s).2.rows, r1.id = args.id →
        row_to_vault_item k r1 = some
          { id := args.id, parent_id := args.parent_id, name := args.name,
            data_path := ex.data_path, item_type := args.item_type,
            folder_type := ex.folder_type, tags := args.tags,
            created_at := ex.created_at, updated_at := now,
            deleted_at := ex.deleted_at,
            totp_secret := args.totp_secret.or ex.totp_secret })) := by
  constructor
  · intro habs
    have hfind : s.rows.find? (fun r => decide (r.id = args.id)) = none :=
      List.find?_eq_none.mpr (fun r hr => by simpa using habs r hr)
    simp only [update_item, hname, Bool.false_eq_true, if_false, hk,
      get_item, hfind]
  · intro r0 ex hfind hdec
    simp only [update_item, hname, Bool.false_eq_true, if_false, hk,
      get_item, hfind, hdec]
    refine ⟨trivial, ?_⟩
    intro r1 hr1 hid
    simp only [update_item_fields, List.mem_map] at hr1
    obtain ⟨r, hr, heq⟩ := hr1
    by_cases hif : r.id = args.id
    · rw [if_pos hif] at heq
      rw [← heq]
      exact row_to_vault_item_item_to_row k _
    · rw [if_neg hif] at heq
      rw [← heq] at hid
      exact absurd hid hif

/-- Witness for C9 on the concrete stored item `updItem`: the update keeps
`data_path`, `created_at`, `folder_type`, `deleted_at` and the stored
totp secret, and stamps `updated_at := 42`. -/
theorem C9_update_item_frame_witness :
    (update_item updArgs 42 updVault).1 = .ok () ∧
    (∀ r1 ∈ (update_item updArgs 42 updVault).2.rows, r1.id = "U" →
      row_to_vault_item exKey r1 = some
        { id := "U", parent_id := none, name := "login2",
          data_path := "pU", item_type := "key", folder_type := none,
          tags := ["new-tag"], created_at := 7, updated_at := 42,
          deleted_at := none, totp_secret := some "KEEPME" }) :=
  (C9_update_item_frame updArgs 42 updVault exKey rfl (by decide)).2
    (item_to_row exKey updItem) updItem (by decide)
    (row_to_vault_item_item_to_row exKey updItem)

/-! ## Claim C6: unlock attempt accounting -/

theorem check_frame (now : Int) (s : VaultState) :
    (check_and_update_lockout now s).2.rows = s.rows ∧
    (check_and_update_lockout now s).2.files = s.files ∧
    (check_and_update_lockout now s).2.salt = s.salt ∧
    (check_and_update_lockout now s).2.verify = s.verify ∧
    (check_and_update_lockout now s).2.strength = s.strength ∧
    (check_and_update_lockout now s).2.engineKey = s.engineKey ∧
    (check_and_update_lockout now s).2.bfConfig = s.bfConfig := by
  by_cases h1 : s.bfConfig.enabled = false
  · simp [check_and_update_lockout, h1]
  · by_cases h2 : s.failedAttempts ≥ s.bfConfig.max_attempts
    · cases hlf : s.lastFailed with
      | none => simp [check_and_update_lockout, h1, h2, hlf]
      | some t =>
        by_cases h3 :
            now < t + (s.bfConfig.lockout_duration_minutes : Int) * 60
        · simp [check_and_update_lockout, h1, h2, hlf, h3]
        · simp [check_and_update_lockout, h1, h2, hlf, h3]
    · simp [check_and_update_lockout, h1, h2]

theorem check_locked_state (now : Int) (s : VaultState)
    (h : (check_and_update_lockout now s).1.is_locked_out = true) :
    (check_and_update_lockout now s).2 = s := by
  by_cases h1 : s.bfConfig.enabled = false
  · simp [check_and_update_lockout, h1] at h
  · by_cases h2 : s.failedAttempts ≥ s.bfConfig.max_attempts
    · cases hlf : s.lastFailed with
      | none => simp [check_and_update_lockout, h1, h2, hlf] at h
      | some t =>
        by_cases h3 :
            now < t + (s.bfConfig.lockout_duration_minutes : Int) * 60
        · simp [check_and_update_lockout, h1, h2, hlf, h3]
        · simp [check_and_update_lockout, h1, h2, hlf, h3] at h
    · simp [check_and_update_lockout, h1, h2] at h

/-- C6: `unlock_vault` records a failed attempt (counter incremented,
timestamp set to `now`) exactly when decrypting the stored verification
token fails, in which case the engine is re-locked and `InvalidMasterKey`
returned; a lockout rejection mutates nothing and records nothing; a
verified-correct unlock zeroes the counter and clears the timestamp. -/
theorem C6_unlock_attempt_accounting (s : VaultState) (master_key : String)
    (now : Int) :
    ((check_and_update_lockout now s).1.is_locked_out = true →
      (unlock_vault master_key now s).2 = s ∧
      (unlock_vault master_key now s).1 =
        .error
          (.invalidInput "Account locked due to too many failed attempts")) ∧
    ((check_and_update_lockout now s).1.is_locked_out = false →
      decryptWith (derive_key master_key s.salt s.strength) s.verify =
        none →
      (unlock_vault master_key now s).1 = .error .invalidMasterKey ∧
      (unlock_vault master_key now s).2.engineKey = none ∧
      (unlock_vault master_key now s).2.failedAttempts =
        (check_and_update_lockout now s).2.failedAttempts + 1 ∧
      (unlock_vault master_key now s).2.lastFailed = some now) ∧
    ((check_and_update_lockout now s).1.is_locked_out = false →
      (decryptWith (derive_key master_key s.salt s.strength)
        s.verify).isSome = true →
      (unlock_vault master_key now s).1 = .ok () ∧
      (unlock_vault master_key now s).2.failedAttempts = 0 ∧
      (unlock_vault master_key now s).2.lastFailed = none ∧
      (unlock_vault master_key now s).2.engineKey =
        some (derive_key master_key s.salt s.strength)) := by
  obtain ⟨-, -, hsalt, hverify, hstrength, -, -⟩ := check_frame now s
  refine ⟨?_, ?_, ?_⟩
  · intro hlock
    have hstate := check_locked_state now s hlock
    simp only [unlock_vault, hlock, if_true]
    refine ⟨hstate, ?_⟩
    trivial
  · intro hnl hdec
    have hd : decryptWith (derive_key master_key
        (check_and_update_lockout now s).2.salt
        (check_and_update_lockout now s).2.strength)
        (check_and_update_lockout now s).2.verify = none := by
      rw [hsalt, hstrength, hverify]; exact hdec
    simp only [unlock_vault, hnl, Bool.false_eq_true, if_false, hd,
      Option.isSome_none, record_failed_attempt, reset_attempts]
    refine ⟨?_, ?_, ?_, ?_⟩ <;> trivial
  · intro hnl hdec
    have hd : (decryptWith (derive_key master_key
        (check_and_update_lockout now s).2.salt
        (check_and_update_lockout now s).2.strength)
        (check_and_update_lockout now s).2.verify).isSome = true := by
      rw [hsalt, hstrength, hverify]; exact hdec
    simp only [unlock_vault, hnl, Bool.false_eq_true, if_false, hd,
      if_true, reset_attempts]
    refine ⟨?_, ?_, ?_, ?_⟩ <;> first | trivial | rw [hsalt, hstrength]

/-- Witness for C6 on a concrete empty unlocked vault and a wrong
passphrase: not locked out, token decrypt fails, so the attempt is
recorded and `InvalidMasterKey` returned. -/
theorem C6_unlock_attempt_accounting_witness :
    ((check_and_update_lockout 5 (baseVault [])).1.is_locked_out = true →
      (unlock_vault "wrongpass" 5 (baseVault [])).2 = baseVault [] ∧
      (unlock_vault "wrongpass" 5 (baseVault [])).1 =
        .error
          (.invalidInput
            "Account locked due to too many failed attempts")) ∧
    ((check_and_update_lockout 5 (baseVault [])).1.is_locked_out = false →
      decryptWith (derive_key "wrongpass" (baseVault []).salt
          (baseVault []).strength) (baseVault []).verify = none →
      (unlock_vault "wrongpass" 5 (baseVault [])).1 =
        .error .invalidMasterKey ∧
      (unlock_vault "wrongpass" 5 (baseVault [])).2.engineKey = none ∧
      (unlock_vault "wrongpass" 5 (baseVault [])).2.failedAttempts =
        (check_and_update_lockout 5 (baseVault [])).2.failedAttempts + 1 ∧
      (unlock_vault "wrongpass" 5 (baseVault [])).2.lastFailed = some 5) ∧
    ((check_and_update_lockout 5 (baseVault [])).1.is_locked_out = false →
      (decryptWith (derive_key "wrongpass" (baseVault []).salt
          (baseVault []).strength) (baseVault []).verify).isSome = true →
      (unlock_vault "wrongpass" 5 (baseVault [])).1 = .ok () ∧
      (unlock_vault "wrongpass" 5 (baseVault [])).2.failedAttempts = 0 ∧
      (unlock_vault "wrongpass" 5 (baseVault [])).2.lastFailed = none ∧
      (unlock_vault "wrongpass" 5 (baseVault [])).2.engineKey =
        some (derive_key "wrongpass" (baseVault []).salt
          (baseVault []).strength)) :=
  C6_unlock_attempt_accounting (baseVault []) "wrongpass" 5

/-! ## Claim C5: cascade soft delete -/

theorem childIds_cons (r : ItemRow) (tl : List ItemRow) (pid : String) :
    childIds (r :: tl) pid =
      if r.parent_id = some pid then r.id :: childIds tl pid
      else childIds tl pid := by
  by_cases h : r.parent_id = some pid <;>
    simp [childIds, List.filter_cons, h]

theorem mem_childIds {rows : List ItemRow} {pid x : String} :
    x ∈ childIds rows pid ↔
      ∃ r, r ∈ rows ∧ r.parent_id = some pid ∧ r.id = x := by
  constructor
  · intro hx
    simp only [childIds, List.mem_map, List.mem_filter,
      decide_eq_true_eq] at hx
    obtain ⟨r, ⟨hr, hp⟩, hid⟩ := hx
    exact ⟨r, hr, hp, hid⟩
  · rintro ⟨r, hr, hp, hid⟩
    simp only [childIds, List.mem_map, List.mem_filter, decide_eq_true_eq]
    exact ⟨r, ⟨hr, hp⟩, hid⟩

theorem collect_sub (rows : List ItemRow) :
    ∀ (fuel : Nat) (q acc out : List String),
      collectLoop rows fuel q acc = some out →
      (∀ x ∈ acc, x ∈ out) ∧ (∀ x ∈ q, x ∈ out) := by
  intro fuel
  induction fuel with
  | zero =>
    intro q acc out h
    cases q with
    | nil =>
      simp only [collectLoop, Option.some.injEq] at h
      subst h
      exact ⟨fun x hx => hx, fun x hx => by cases hx⟩
    | cons c cs =>
      simp only [collectLoop] at h
      cases h
  | succ n ih =>
    intro q acc out h
    cases q with
    | nil =>
      simp only [collectLoop, Option.some.injEq] at h
      subst h
      exact ⟨fun x hx => hx, fun x hx => by cases hx⟩
    | cons c cs =>
      simp only [collectLoop] at h
      obtain ⟨hacc, hq⟩ := ih _ _ _ h
      have hcur : (c :: cs).getLast (by simp) ∈ out :=
        hacc _ (List.mem_append_right _ (by simp))
      refine ⟨fun x hx => hacc x (List.mem_append_left _ hx), ?_⟩
      intro x hx
      have hdecomp := List.dropLast_append_getLast
        (l := c :: cs) (by simp)
      rw [← hdecomp] at hx
      rcases List.mem_append.mp hx with h0 | h0
      · exact hq x (List.mem_append_left _ h0)
      · have : x = (c :: cs).getLast (by simp) := by simpa using h0
        rw [this]
        exact hcur

theorem collect_sound (rows : List ItemRow) (root : String) :
    ∀ (fuel : Nat) (q acc out : List String),
      collectLoop rows fuel q acc = some out →
      (∀ x ∈ q, Reaches rows root x) →
      (∀ x ∈ acc, Reaches rows root x) →
      ∀ x ∈ out, Reaches rows root x := by
  intro fuel
  induction fuel with
  | zero =>
    intro q acc out h hq hacc
    cases q with
    | nil =>
      simp only [collectLoop, Option.some.injEq] at h
      subst h
      exact hacc
    | cons c cs =>
      simp only [collectLoop] at h
      cases h
  | succ n ih =>
    intro q acc out h hq hacc
    cases q with
    | nil =>
      simp only [collectLoop, Option.some.injEq] at h
      subst h
      exact hacc
    | cons c cs =>
      simp only [collectLoop] at h
      have hcur : Reaches rows root ((c :: cs).getLast (by simp)) :=
        hq _ (List.getLast_mem (by simp))
      refine ih _ _ _ h ?_ ?_
      · intro x hx
        rcases List.mem_append.mp hx with h0 | h0
        · exact hq x (List.dropLast_sublist (c :: cs) |>.subset h0)
        · obtain ⟨r, hr, hp, hid⟩ := mem_childIds.mp h0
          rw [← hid]
          exact Reaches.step hcur hr hp
      · intro x hx
        rcases List.mem_append.mp hx with h0 | h0
        · exact hacc x h0
        · have : x = (c :: cs).getLast (by simp) := by simpa using h0
          rw [this]
          exact hcur

theorem collect_closed (rows : List ItemRow) :
    ∀ (fuel : Nat) (q acc out : List String),
      collectLoop rows fuel q acc = some out →
      (∀ a ∈ acc, ∀ x ∈ childIds rows a, x ∈ acc ∨ x ∈ q) →
      ∀ a ∈ out, ∀ x ∈ childIds rows a, x ∈ out := by
  intro fuel
  induction fuel with
  | zero =>
    intro q acc out h hcl
    cases q with
    | nil =>
      simp only [collectLoop, Option.some.injEq] at h
      subst h
      intro a ha x hx
      rcases hcl a ha x hx with h0 | h0
      · exact h0
      · cases h0
    | cons c cs =>
      simp only [collectLoop] at h
      cases h
  | succ n ih =>
    intro q acc out h hcl
    cases q with
    | nil =>
      simp only [collectLoop, Option.some.injEq] at h
      subst h
      intro a ha x hx
      rcases hcl a ha x hx with h0 | h0
      · exact h0
      · cases h0
    | cons c cs =>
      simp only [collectLoop] at h
      refine ih _ _ _ h ?_
      intro a ha x hx
      rcases List.mem_append.mp ha with ha0 | ha0
      · rcases hcl a ha0 x hx with h0 | h0
        · exact .inl (List.mem_append_left _ h0)
        · have hdecomp := List.dropLast_append_getLast
            (l := c :: cs) (by simp)
          rw [← hdecomp] at h0
          rcases List.mem_append.mp h0 with h1 | h1
          · exact .inr (List.mem_append_left _ h1)
          · have : x = (c :: cs).getLast (by simp) := by simpa using h1
            exact .inl (List.mem_append_right _ (by simp [this]))
      · have ha1 : a = (c :: cs).getLast (by simp) := by simpa using ha0
        subst ha1
        exact .inr (List.mem_append_right _ hx)

theorem collect_complete (rows : List ItemRow) (root : String)
    (fuel : Nat) (out : List String)
    (h : collectLoop rows fuel [root] [] = some out) :
    ∀ y, Reaches rows root y → y ∈ out := by
  have hroot : root ∈ out := (collect_sub rows fuel [root] [] out h).2
    root (by simp)
  have hclosed := collect_closed rows fuel [root] [] out h
    (by intro a ha; cases ha)
  intro y hy
  induction hy with
  | refl => exact hroot
  | step hre hr hp ih =>
    exact hclosed _ ih _ (mem_childIds.mpr ⟨_, hr, hp, rfl⟩)

theorem collectLoop_congr (rows rows2 : List ItemRow)
    (hch : ∀ pid, childIds rows2 pid = childIds rows pid) :
    ∀ (fuel : Nat) (q acc : List String),
      collectLoop rows2 fuel q acc = collectLoop rows fuel q acc := by
  intro fuel
  induction fuel with
  | zero => intro q acc; cases q <;> rfl
  | succ n ih =>
    intro q acc
    cases q with
    | nil => rfl
    | cons c cs =>
      simp only [collectLoop]
      rw [hch, ih]

theorem childIds_map_stamp (rows : List ItemRow)
    (f : ItemRow → ItemRow)
    (hid : ∀ r, (f r).id = r.id)
    (hpid : ∀ r, (f r).parent_id = r.parent_id) (pid : String) :
    childIds (rows.map f) pid = childIds rows pid := by
  induction rows with
  | nil => rfl
  | cons r tl ih =>
    rw [List.map_cons, childIds_cons, childIds_cons, hpid, hid, ih]

/-- C5: `delete_item_and_descendants id` collects exactly the set of the
id plus its transitive `parent_id`-descendants, succeeds, stamps precisely
those rows with one shared encrypted `deleted_at` value (all other rows
and fields untouched), and re-running on the already-deleted subtree
succeeds and merely restamps: the result equals deleting from the
original state with the second timestamp. -/
theorem C5_cascade_delete (s : VaultState) (k : Key) (id : String)
    (now now2 : Int) (ids : List String)
    (hcol : collectIds s.rows id = some ids) :
    (∀ x, x ∈ ids ↔ Reaches s.rows id x) ∧
    (delete_item_and_descendants id now k s).1 = .ok () ∧
    List.Forall₂ (fun r r1 =>
        (Reaches s.rows id r.id →
          r1 = { r with deleted_at := some (encryptWith k now) }) ∧
        (¬ Reaches s.rows id r.id → r1 = r))
      s.rows (delete_item_and_descendants id now k s).2.rows ∧
    (delete_item_and_descendants id now2 k
        (delete_item_and_descendants id now k s).2).1 = .ok () ∧
    (delete_item_and_descendants id now2 k
        (delete_item_and_descendants id now k s).2).2.rows =
      (delete_item_and_descendants id now2 k s).2.rows := by
  rw [collectIds] at hcol
  have hidin : id ∈ ids :=
    (collect_sub s.rows _ [id] [] ids hcol).2 id (by simp)
  have hiff : ∀ x, x ∈ ids ↔ Reaches s.rows id x := by
    intro x
    constructor
    · intro hx
      refine collect_sound s.rows id _ [id] [] ids hcol ?_ ?_ x hx
      · intro y hy
        have : y = id := by simpa using hy
        rw [this]
        exact Reaches.refl
      · intro y hy; cases hy
    · intro hx
      exact collect_complete s.rows id _ ids hcol x hx
  have hne : ¬(ids.isEmpty = true) := by
    cases ids with
    | nil => cases hidin
    | cons a tl => simp [List.isEmpty]
  have hcont : ∀ (l : List String) (a : String),
      (l.contains a = true) ↔ a ∈ l := by
    intro l a
    simp [List.contains_iff_exists_mem_beq, beq_iff_eq]
  have hD1 : delete_item_and_descendants id now k s =
      (.ok (), { s with rows := s.rows.map (fun r =>
        if ids.contains r.id then
          { r with deleted_at := some (encryptWith k now) }
        else r) }) := by
    rw [delete_item_and_descendants, collectIds, hcol]
    simp only [if_neg hne]
  have hreach_cont : ∀ r : ItemRow,
      (ids.contains r.id = true) ↔ Reaches s.rows id r.id := by
    intro r
    rw [hcont, hiff]
  have hch : ∀ pid, childIds ((delete_item_and_descendants
      id now k s).2.rows) pid = childIds s.rows pid := by
    intro pid
    rw [hD1]
    refine childIds_map_stamp s.rows _ ?_ ?_ pid
    · intro r
      by_cases h : r.id ∈ ids <;> simp [h]
    · intro r
      by_cases h : r.id ∈ ids <;> simp [h]
  have hlen : (delete_item_and_descendants id now k s).2.rows.length =
      s.rows.length := by
    rw [hD1]
    exact List.length_map _ _
  have hD2 : delete_item_and_descendants id now2 k
      (delete_item_and_descendants id now k s).2 =
      (.ok (), { (delete_item_and_descendants id now k s).2 with
        rows := (delete_item_and_descendants
          id now k s).2.rows.map (fun r =>
            if ids.contains r.id then
              { r with deleted_at := some (encryptWith k now2) }
            else r) }) := by
    rw [delete_item_and_descendants, collectIds, hlen,
      collectLoop_congr s.rows _ hch, hcol]
    simp only [if_neg hne]
  have hD2d : delete_item_and_descendants id now2 k s =
      (.ok (), { s with rows := s.rows.map (fun r =>
        if ids.contains r.id then
          { r with deleted_at := some (encryptWith k now2) }
        else r) }) := by
    rw [delete_item_and_descendants, collectIds, hcol]
    simp only [if_neg hne]
  refine ⟨hiff, by rw [hD1], ?_, by rw [hD2], ?_⟩
  · rw [hD1]
    rw [List.forall₂_map_right_iff, List.forall₂_same]
    intro r _
    constructor
    · intro hre
      rw [if_pos ((hreach_cont r).mpr hre)]
    · intro hre
      rw [if_neg (fun hc => hre ((hreach_cont r).mp hc))]
  · rw [hD2, hD2d, hD1]
    simp only [List.map_map]
    apply List.map_congr_left
    intro r _
    by_cases h : ids.contains r.id = true
    · simp only [Function.comp_apply, if_pos h]
    · simp only [Function.comp_apply, if_neg h]

/-- Witness for C5 on the concrete forest A → B → C. -/
theorem C5_cascade_delete_witness :
    (∀ x, x ∈ ["A", "B", "C"] ↔ Reaches cascVault.rows "A" x) ∧
    (delete_item_and_descendants "A" 10 exKey cascVault).1 = .ok () ∧
    (delete_item_and_descendants "A" 20 exKey
        (delete_item_and_descendants "A" 10 exKey cascVault).2).2.rows =
      (delete_item_and_descendants "A" 20 exKey cascVault).2.rows := by
  have h := C5_cascade_delete cascVault exKey "A" 10 20 ["A", "B", "C"]
    (by decide)
  exact ⟨h.1, h.2.1, h.2.2.2.2⟩

/-! ## Claim C4: master-key rotation -/

theorem update_item_fields_keep (it : VaultItem) (k : Key)
    (rows : List ItemRow) (r : ItemRow) (hr : r ∈ rows)
    (hne : r.id ≠ it.id) : r ∈ update_item_fields it k rows := by
  have h := List.mem_map_of_mem
    (fun r0 => if r0.id = it.id then item_to_row k it else r0) hr
  simp only at h
  rw [if_neg hne] at h
  rw [update_item_fields]
  exact h

theorem update_item_fields_hit (it : VaultItem) (k : Key)
    (rows : List ItemRow) (h : ∃ r ∈ rows, r.id = it.id) :
    item_to_row k it ∈ update_item_fields it k rows := by
  obtain ⟨r, hr, hid⟩ := h
  have h2 := List.mem_map_of_mem
    (fun r0 => if r0.id = it.id then item_to_row k it else r0) hr
  simp only at h2
  rw [if_pos hid] at h2
  rw [update_item_fields]
  exact h2

theorem update_item_fields_id_exists (it : VaultItem) (k : Key)
    (rows : List ItemRow) (rid : String) (h : ∃ r ∈ rows, r.id = rid) :
    ∃ r ∈ update_item_fields it k rows, r.id = rid := by
  obtain ⟨r, hr, hid⟩ := h
  by_cases hcase : r.id = it.id
  · refine ⟨item_to_row k it, update_item_fields_hit it k rows
      ⟨r, hr, hcase⟩, ?_⟩
    rw [show (item_to_row k it).id = it.id from rfl, ← hcase, hid]
  · exact ⟨r, update_item_fields_keep it k rows r hr hcase, hid⟩

theorem reencryptItem_rows (k_old k_new : Key) (it : VaultItem)
    (st : VaultState) :
    (reencryptItem k_old k_new it st).2.rows =
      update_item_fields it k_new st.rows := by
  rw [reencryptItem]
  repeat' split
  all_goals rfl

theorem reencryptItem_frame (k_old k_new : Key) (it : VaultItem)
    (st : VaultState) :
    (reencryptItem k_old k_new it st).2.salt = st.salt ∧
    (reencryptItem k_old k_new it st).2.verify = st.verify ∧
    (reencryptItem k_old k_new it st).2.strength = st.strength ∧
    (reencryptItem k_old k_new it st).2.engineKey = st.engineKey ∧
    (reencryptItem k_old k_new it st).2.bfConfig = st.bfConfig ∧
    (reencryptItem k_old k_new it st).2.failedAttempts =
      st.failedAttempts ∧
    (reencryptItem k_old k_new it st).2.lastFailed = st.lastFailed := by
  rw [reencryptItem]
  repeat' split
  all_goals exact ⟨rfl, rfl, rfl, rfl, rfl, rfl, rfl⟩

theorem reencryptItem_files_frame (k_old k_new : Key) (it : VaultItem)
    (st : VaultState) (p : String) (hp : p ≠ it.data_path) :
    fileRead (reencryptItem k_old k_new it st).2.files p =
      fileRead st.files p := by
  rw [reencryptItem]
  repeat' split
  · rfl
  · rfl
  · exact fileRead_fileWrite_other st.files p it.data_path _ hp
  · rfl

theorem reencryptLoop_rows_frame (k_old k_new : Key)
    (its : List VaultItem) :
    ∀ (st : VaultState) (r : ItemRow), r ∈ st.rows →
      (∀ it ∈ its, it.id ≠ r.id) →
      r ∈ (reencryptLoop k_old k_new its st).2.rows := by
  induction its with
  | nil => intro st r hr _; exact hr
  | cons hd tl ih =>
    intro st r hr hne
    have hr1 : r ∈ (reencryptItem k_old k_new hd st).2.rows := by
      rw [reencryptItem_rows]
      exact update_item_fields_keep hd k_new st.rows r hr
        (fun h => hne hd (by simp) h.symm)
    rw [reencryptLoop]
    rcases hE : reencryptItem k_old k_new hd st with ⟨res, s1⟩
    rw [hE] at hr1
    cases res with
    | ok u =>
      simp only
      exact ih s1 r hr1 (fun it hit => hne it (by simp [hit]))
    | error e => exact hr1

theorem reencryptLoop_files_frame (k_old k_new : Key)
    (its : List VaultItem) :
    ∀ (st : VaultState) (p : String),
      (∀ it ∈ its, p ≠ it.data_path) →
      fileRead (reencryptLoop k_old k_new its st).2.files p =
        fileRead st.files p := by
  induction its with
  | nil => intro st p _; rfl
  | cons hd tl ih =>
    intro st p hne
    have h1 : fileRead (reencryptItem k_old k_new hd st).2.files p =
        fileRead st.files p :=
      reencryptItem_files_frame k_old k_new hd st p (hne hd (by simp))
    rw [reencryptLoop]
    rcases hE : reencryptItem k_old k_new hd st with ⟨res, s1⟩
    rw [hE] at h1
    cases res with
    | ok u =>
      simp only
      rw [ih s1 p (fun it hit => hne it (by simp [hit])), h1]
    | error e => exact h1

theorem reencryptLoop_state_frame (k_old k_new : Key)
    (its : List VaultItem) :
    ∀ st : VaultState,
      (reencryptLoop k_old k_new its st).2.salt = st.salt ∧
      (reencryptLoop k_old k_new its st).2.verify = st.verify ∧
      (reencryptLoop k_old k_new its st).2.strength = st.strength ∧
      (reencryptLoop k_old k_new its st).2.engineKey = st.engineKey ∧
      (reencryptLoop k_old k_new its st).2.bfConfig = st.bfConfig ∧
      (reencryptLoop k_old k_new its st).2.failedAttempts =
        st.failedAttempts ∧
      (reencryptLoop k_old k_new its st).2.lastFailed = st.lastFailed := by
  induction its with
  | nil => intro st; exact ⟨rfl, rfl, rfl, rfl, rfl, rfl, rfl⟩
  | cons hd tl ih =>
    intro st
    have h1 := reencryptItem_frame k_old k_new hd st
    rw [reencryptLoop]
    rcases hE : reencryptItem k_old k_new hd st with ⟨res, s1⟩
    rw [hE] at h1
    cases res with
    | ok u =>
      simp only
      obtain ⟨a1, a2, a3, a4, a5, a6, a7⟩ := ih s1
      obtain ⟨b1, b2, b3, b4, b5, b6, b7⟩ := h1
      exact ⟨a1.trans b1, a2.trans b2, a3.trans b3, a4.trans b4,
        a5.trans b5, a6.trans b6, a7.trans b7⟩
    | error e => exact h1

theorem reencryptLoop_spec (k_old k_new : Key) (its : List VaultItem) :
    ∀ st : VaultState,
      ((its.map (fun it => it.id)).Nodup) →
      (∀ it ∈ its, it.data_path ≠ "" →
        ∃ c, fileRead st.files it.data_path = some c ∧ c.key = k_old) →
      (its.Pairwise (fun a b => a.data_path ≠ "" → b.data_path ≠ "" →
        a.data_path ≠ b.data_path)) →
      (∀ it ∈ its, ∃ r ∈ st.rows, r.id = it.id) →
      (reencryptLoop k_old k_new its st).1 = .ok () ∧
      (∀ it ∈ its,
        item_to_row k_new it ∈ (reencryptLoop k_old k_new its st).2.rows) ∧
      (∀ it ∈ its, it.data_path ≠ "" →
        ∃ c, fileRead st.files it.data_path = some c ∧ c.key = k_old ∧
          fileRead (reencryptLoop k_old k_new its st).2.files
            it.data_path = some (encryptWith k_new c.plain)) := by
  induction its with
  | nil =>
    intro st _ _ _ _
    exact ⟨rfl, by simp, by simp⟩
  | cons hd tl ih =>
    intro st h1 h2 h3 h4
    have h1h : hd.id ∉ tl.map (fun it => it.id) :=
      (List.nodup_cons.mp h1).1
    have h1x : (tl.map (fun it => it.id)).Nodup :=
      (List.nodup_cons.mp h1).2
    have hrel : ∀ it ∈ tl, hd.data_path ≠ "" → it.data_path ≠ "" →
        hd.data_path ≠ it.data_path :=
      (List.pairwise_cons.mp h3).1
    have h3x : tl.Pairwise (fun a b => a.data_path ≠ "" →
        b.data_path ≠ "" → a.data_path ≠ b.data_path) :=
      (List.pairwise_cons.mp h3).2
    have hidne : ∀ it ∈ tl, it.id ≠ hd.id := by
      intro it hit heq
      exact h1h (List.mem_map.mpr ⟨it, hit, heq⟩)
    by_cases hdp : hd.data_path = ""
    · -- no payload: only the row is re-encrypted
      have hstep : reencryptItem k_old k_new hd st =
          (.ok (), { st with
            rows := update_item_fields hd k_new st.rows }) := by
        simp only [reencryptItem, hdp]
        simp
      have hloop : reencryptLoop k_old k_new (hd :: tl) st =
          reencryptLoop k_old k_new tl
            { st with rows := update_item_fields hd k_new st.rows } := by
        rw [reencryptLoop, hstep]
      obtain ⟨ihok, ihrows, ihfiles⟩ := ih
        { st with rows := update_item_fields hd k_new st.rows }
        h1x (fun it hit hne => h2 it (by simp [hit]) hne)
        h3x
        (fun it hit => update_item_fields_id_exists hd k_new st.rows it.id
          (h4 it (by simp [hit])))
      rw [hloop]
      refine ⟨ihok, ?_, ?_⟩
      · intro it hit
        rcases List.mem_cons.mp hit with h0 | h0
        · subst h0
          refine reencryptLoop_rows_frame k_old k_new tl _ _ ?_ ?_
          · exact update_item_fields_hit it k_new st.rows (h4 it (by simp))
          · exact fun it2 hit2 => hidne it2 hit2
        · exact ihrows it h0
      · intro it hit hne
        rcases List.mem_cons.mp hit with h0 | h0
        · subst h0
          exact absurd hdp hne
        · exact ihfiles it h0 hne
    · -- payload-bearing: the row and the payload file are re-encrypted
      obtain ⟨c, hre, hkey⟩ := h2 hd (by simp) hdp
      have hdec : decryptWith k_old c = some c.plain := by
        rw [decryptWith, if_pos hkey]
      have hstep : reencryptItem k_old k_new hd st =
          (.ok (), { st with
            rows := update_item_fields hd k_new st.rows
            files :=
              fileWrite st.files hd.data_path (encryptWith k_new c.plain) }) := by
        simp only [reencryptItem, if_pos hdp, hre, hdec]
      have hloop : reencryptLoop k_old k_new (hd :: tl) st =
          reencryptLoop k_old k_new tl
            { st with
              rows := update_item_fields hd k_new st.rows
              files :=
                fileWrite st.files hd.data_path
                  (encryptWith k_new c.plain) } := by
        rw [reencryptLoop, hstep]
      have hpathne : ∀ it ∈ tl, it.data_path ≠ "" →
          it.data_path ≠ hd.data_path := by
        intro it hit hne heq
        exact hrel it hit hdp hne heq.symm
      have hpres : ∀ it ∈ tl, it.data_path ≠ "" →
          fileRead (fileWrite st.files hd.data_path
            (encryptWith k_new c.plain)) it.data_path =
            fileRead st.files it.data_path := by
        intro it hit hne
        exact fileRead_fileWrite_other st.files it.data_path hd.data_path _
          (hpathne it hit hne)
      obtain ⟨ihok, ihrows, ihfiles⟩ := ih
        { st with
          rows := update_item_fields hd k_new st.rows
          files :=
            fileWrite st.files hd.data_path (encryptWith k_new c.plain) }
        h1x (fun it hit hne => by
          obtain ⟨c2, hre2, hkey2⟩ := h2 it (by simp [hit]) hne
          exact ⟨c2, (hpres it hit hne).trans hre2, hkey2⟩)
        h3x
        (fun it hit => update_item_fields_id_exists hd k_new st.rows it.id
          (h4 it (by simp [hit])))
      rw [hloop]
      refine ⟨ihok, ?_, ?_⟩
      · intro it hit
        rcases List.mem_cons.mp hit with h0 | h0
        · subst h0
          refine reencryptLoop_rows_frame k_old k_new tl _ _ ?_ ?_
          · exact update_item_fields_hit it k_new st.rows (h4 it (by simp))
          · exact fun it2 hit2 => hidne it2 hit2
        · exact ihrows it h0
      · intro it hit hne
        rcases List.mem_cons.mp hit with h0 | h0
        · subst h0
          refine ⟨c, hre, hkey, ?_⟩
          have hforall : ∀ it2 ∈ tl, it.data_path ≠ it2.data_path := by
            intro it2 hit2
            by_cases h2e : it2.data_path = ""
            · rw [h2e]; exact hne
            · exact fun heq => hpathne it2 hit2 h2e heq.symm
          rw [reencryptLoop_files_frame k_old k_new tl _ it.data_path
            hforall]
          exact fileRead_fileWrite_self st.files it.data_path _
        · obtain ⟨c2, hre2, hkey2, hfin2⟩ := ihfiles it h0 hne
          exact ⟨c2, (hpres it h0 hne).symm.trans hre2, hkey2, hfin2⟩

theorem check_not_locked (now : Int) (s : VaultState)
    (h : s.failedAttempts < s.bfConfig.max_attempts) :
    (check_and_update_lockout now s).1.is_locked_out = false ∧
    (check_and_update_lockout now s).2 = s := by
  by_cases h1 : s.bfConfig.enabled = false
  · simp [check_and_update_lockout, h1]
  · have h2 : ¬(s.failedAttempts ≥ s.bfConfig.max_attempts) := not_le.mpr h
    simp [check_and_update_lockout, h1, h2]

set_option maxRecDepth 8000

/-- C4: after `update_master_key(current, new)` with a fresh salt, every
pre-existing row decrypts under the key derived from the new passphrase
and new salt to the same plaintext item, every payload file decrypts
under the new key to the same content, the stored verification token
decrypts under the new key, and a subsequent `unlock_vault` with the old
passphrase fails with `InvalidMasterKey`. -/
theorem C4_key_rotation (args : UpdateMasterKeyArgs) (new_salt : Nat)
    (now : Int) (s : VaultState)
    (hwf : ∀ r ∈ s.rows,
      rowUnder (derive_key args.current_key s.salt s.strength) r = true)
    (hids : (s.rows.map (fun r => r.id)).Nodup)
    (hfiles : ∀ r ∈ s.rows, r.data_path.plain ≠ "" →
      ∃ c, fileRead s.files r.data_path.plain = some c ∧
        c.key = derive_key args.current_key s.salt s.strength)
    (hpaths : s.rows.Pairwise (fun a b => a.data_path.plain ≠ "" →
      b.data_path.plain ≠ "" → a.data_path.plain ≠ b.data_path.plain))
    (hverify : s.verify.key = derive_key args.current_key s.salt s.strength)
    (hlock : s.failedAttempts < s.bfConfig.max_attempts)
    (hpass : args.current_key ≠ args.new_key) :
    (update_master_key args new_salt s).1 = .ok () ∧
    (∀ r ∈ s.rows, ∃ r1 ∈ (update_master_key args new_salt s).2.rows,
      r1.id = r.id ∧
      row_to_vault_item (derive_key args.new_key new_salt (args.strength.getD s.strength)) r1 =
      row_to_vault_item (derive_key args.current_key s.salt s.strength) r) ∧
    (∀ r ∈ s.rows, r.data_path.plain ≠ "" →
      ∃ c0 c1, fileRead s.files r.data_path.plain = some c0 ∧
        fileRead (update_master_key args new_salt s).2.files
          r.data_path.plain = some c1 ∧
        decryptWith (derive_key args.new_key new_salt (args.strength.getD s.strength)) c1 = some c0.plain) ∧
    decryptWith (derive_key args.new_key new_salt (args.strength.getD s.strength))
      (update_master_key args new_salt s).2.verify =
      some s.verify.plain ∧
    (update_master_key args new_salt s).2.salt = new_salt ∧
    (update_master_key args new_salt s).2.engineKey =
      some (derive_key args.new_key new_salt (args.strength.getD s.strength)) ∧
    (unlock_vault args.current_key now
      (update_master_key args new_salt s).2).1 =
      .error .invalidMasterKey := by
  have hver : decryptWith (derive_key args.current_key s.salt s.strength) s.verify = some s.verify.plain := by
    rw [decryptWith, if_pos hverify]
  have hmapM := mapM_decrypt (derive_key args.current_key s.salt s.strength) s.rows hwf
  have hitems : get_all_items_recursive (derive_key args.current_key s.salt s.strength) s.rows =
      .ok ((s.rows.map itemOfRow).mergeSort (fun a b => recursiveCmp a b != Ordering.gt)) := by
    rw [get_all_items_recursive, hmapM]
  have hperm : List.Perm ((s.rows.map itemOfRow).mergeSort (fun a b => recursiveCmp a b != Ordering.gt)) (s.rows.map itemOfRow) :=
    List.mergeSort_perm _ _
  have hmemit : ∀ it ∈ ((s.rows.map itemOfRow).mergeSort (fun a b => recursiveCmp a b != Ordering.gt)), ∃ r ∈ s.rows, it = itemOfRow r := by
    intro it hit
    have h0 := hperm.mem_iff.mp hit
    obtain ⟨r, hr, heq⟩ := List.mem_map.mp h0
    exact ⟨r, hr, heq.symm⟩
  have hH1 : (((s.rows.map itemOfRow).mergeSort (fun a b => recursiveCmp a b != Ordering.gt)).map (fun it => it.id)).Nodup := by
    refine ((hperm.map (fun it => it.id)).nodup_iff).mpr ?_
    rw [List.map_map]
    exact hids
  have hH2 : ∀ it ∈ ((s.rows.map itemOfRow).mergeSort (fun a b => recursiveCmp a b != Ordering.gt)), it.data_path ≠ "" →
      ∃ c, fileRead s.files it.data_path = some c ∧
        c.key = derive_key args.current_key s.salt s.strength := by
    intro it hit hne
    obtain ⟨r, hr, heq⟩ := hmemit it hit
    subst heq
    exact hfiles r hr hne
  have hH3 : ((s.rows.map itemOfRow).mergeSort (fun a b => recursiveCmp a b != Ordering.gt)).Pairwise
      (fun a b => a.data_path ≠ "" → b.data_path ≠ "" →
        a.data_path ≠ b.data_path) := by
    refine (hperm.pairwise_iff ?_).mpr ?_
    · intro a b h ha hb
      exact (h hb ha).symm
    · rw [List.pairwise_map]
      exact hpaths
  have hH4 : ∀ it ∈ ((s.rows.map itemOfRow).mergeSort (fun a b => recursiveCmp a b != Ordering.gt)), ∃ r ∈ s.rows, r.id = it.id := by
    intro it hit
    obtain ⟨r, hr, heq⟩ := hmemit it hit
    subst heq
    exact ⟨r, hr, rfl⟩
  obtain ⟨hlok, hlrows, hlfiles⟩ := reencryptLoop_spec (derive_key args.current_key s.salt s.strength) (derive_key args.new_key new_salt (args.strength.getD s.strength))
    ((s.rows.map itemOfRow).mergeSort (fun a b => recursiveCmp a b != Ordering.gt)) { s with engineKey := some (derive_key args.current_key s.salt s.strength) } hH1 hH2 hH3 hH4
  have hframe := reencryptLoop_state_frame (derive_key args.current_key s.salt s.strength) (derive_key args.new_key new_salt (args.strength.getD s.strength))
    ((s.rows.map itemOfRow).mergeSort (fun a b => recursiveCmp a b != Ordering.gt)) { s with engineKey := some (derive_key args.current_key s.salt s.strength) }
  rcases hE : (reencryptLoop (derive_key args.current_key s.salt s.strength) (derive_key args.new_key new_salt (args.strength.getD s.strength)) ((s.rows.map itemOfRow).mergeSort (fun a b => recursiveCmp a b != Ordering.gt)) { s with engineKey := some (derive_key args.current_key s.salt s.strength) }) with ⟨res, s2⟩
  rw [hE] at hlok hlrows hlfiles hframe
  simp only at hlok hlrows hlfiles hframe
  subst hlok
  have hmain : update_master_key args new_salt s =
      (.ok (), { s2 with
        verify := encryptWith (derive_key args.new_key new_salt (args.strength.getD s.strength)) s.verify.plain
        salt := new_salt
        strength := args.strength.getD s.strength
        engineKey := some (derive_key args.new_key new_salt (args.strength.getD s.strength)) }) := by
    simp only [update_master_key, hver, hitems, hE]
  rw [hmain]
  obtain ⟨hfsalt, hfverify, hfstrength, hfengine, hfbf, hffa, hflf⟩ :=
    hframe
  refine ⟨rfl, ?_, ?_, ?_, rfl, rfl, ?_⟩
  · intro r hr
    have hitmem : itemOfRow r ∈ ((s.rows.map itemOfRow).mergeSort (fun a b => recursiveCmp a b != Ordering.gt)) :=
      hperm.mem_iff.mpr (List.mem_map_of_mem itemOfRow hr)
    refine ⟨item_to_row (derive_key args.new_key new_salt (args.strength.getD s.strength)) (itemOfRow r),
      hlrows (itemOfRow r) hitmem, rfl, ?_⟩
    rw [row_to_vault_item_item_to_row,
      row_to_vault_item_of_rowUnder (hwf r hr)]
  · intro r hr hne
    have hitmem : itemOfRow r ∈ ((s.rows.map itemOfRow).mergeSort (fun a b => recursiveCmp a b != Ordering.gt)) :=
      hperm.mem_iff.mpr (List.mem_map_of_mem itemOfRow hr)
    obtain ⟨c, hre, hkey, hfin⟩ := hlfiles (itemOfRow r) hitmem hne
    exact ⟨c, encryptWith (derive_key args.new_key new_salt (args.strength.getD s.strength)) c.plain, hre, hfin,
      decryptWith_encryptWith (derive_key args.new_key new_salt (args.strength.getD s.strength)) c.plain⟩
  · exact decryptWith_encryptWith (derive_key args.new_key new_salt (args.strength.getD s.strength)) s.verify.plain
  · have hlock3 : ({ s2 with
        verify := encryptWith (derive_key args.new_key new_salt (args.strength.getD s.strength)) s.verify.plain
        salt := new_salt
        strength := args.strength.getD s.strength
        engineKey := some (derive_key args.new_key new_salt (args.strength.getD s.strength)) } : VaultState).failedAttempts <
        ({ s2 with
        verify := encryptWith (derive_key args.new_key new_salt (args.strength.getD s.strength)) s.verify.plain
        salt := new_salt
        strength := args.strength.getD s.strength
        engineKey := some (derive_key args.new_key new_salt (args.strength.getD s.strength)) } : VaultState).bfConfig.max_attempts := by
      show s2.failedAttempts < s2.bfConfig.max_attempts
      rw [hffa, hfbf]
      exact hlock
    obtain ⟨hnl, hcheq⟩ := check_not_locked now _ hlock3
    simp only [unlock_vault, hnl, Bool.false_eq_true, if_false, hcheq]
    have hdnone : decryptWith (derive_key args.current_key new_salt
        (args.strength.getD s.strength))
        (encryptWith (derive_key args.new_key new_salt (args.strength.getD s.strength)) s.verify.plain) = none := by
      rw [decryptWith, if_neg]
      simp only [encryptWith, derive_key, Key.mk.injEq]
      intro hcon
      exact hpass hcon.1.symm
    simp only [hdnone, Option.isSome_none, Bool.false_eq_true, if_false]

/-- Witness for C4 on the concrete one-item vault `rotVault`, rotating
from `"hunter2"` to `"hunter3"` with fresh salt 1. -/
theorem C4_key_rotation_witness :
    (update_master_key
      { current_key := "hunter2", new_key := "hunter3", strength := none }
      1 rotVault).1 = .ok () ∧
    decryptWith (derive_key "hunter3" 1 KeyDerivationStrength.Recommended)
      (update_master_key
        { current_key := "hunter2", new_key := "hunter3",
          strength := none } 1 rotVault).2.verify =
      some verificationMarker ∧
    (unlock_vault "hunter2" 5 (update_master_key
      { current_key := "hunter2", new_key := "hunter3", strength := none }
      1 rotVault).2).1 = .error .invalidMasterKey := by
  have h := C4_key_rotation
    { current_key := "hunter2", new_key := "hunter3", strength := none }
    1 5 rotVault
    (by
      intro r hr
      simp only [rotVault, baseVault, List.mem_singleton] at hr
      subst hr
      decide)
    (by decide)
    (by
      intro r hr hne
      simp only [rotVault, baseVault, List.mem_singleton] at hr
      subst hr
      exact ⟨encryptWith exKey "rotate-me", by decide, by decide⟩)
    (by simp [rotVault, baseVault])
    (by decide)
    (by decide)
    (by decide)
  exact ⟨h.1, h.2.2.2.1, h.2.2.2.2.2.2⟩

end FetchVault
